import Mathlib

/-
Verification of the file-sharing access-control and resource-hierarchy core.

The definitions below are a shallow embedding of the TypeScript route handlers
and shared utilities of the repository (utils/share, the share API routes for
upload, download, collections, file deletion, and the access-validation
endpoints).  Database tables (files, collections) are embedded as lists of
rows; the D1 statements of the handlers become list operations; `Date.now()`
becomes an explicit `now : Int` parameter (milliseconds); the external SHA-256
primitive (`crypto.subtle.digest`) becomes an explicit `hash : String → String`
parameter, since the code only ever uses it as a deterministic function from
strings to hex strings.  JSON-encoded nullable columns (allowed_emails) are
embedded at their parsed type `Option (List String)`.  Audit-log inserts are
returned as lists of rows; columns that are pure request metadata threaded
through unchanged (ip_address, user_agent, location) are omitted because they
never influence control flow.  Recursive SQL (the cascade CTE) and the
breadcrumb while-loop are embedded with explicit fuel, which is sufficient
under the acyclicity invariants maintained by the operations.
-/

namespace FileShare

/-! ## Constants and pure utilities (utils/share) -/

/-- Download token validity: 5 minutes (milliseconds). -/
def TOKEN_VALIDITY_MS : Int := 5 * 60 * 1000

/-- Collection token validity: 30 minutes (milliseconds). -/
def COLLECTION_TOKEN_VALIDITY_MS : Int := 30 * 60 * 1000

/-- Maximum collection nesting depth. -/
def MAX_COLLECTION_DEPTH : Nat := 3

/-- The string `id:email:timestamp` that both token flavours hash
    (the JS template literal in generateCollectionToken and in the
    access-validation route). -/
def tokenPayload (id email : String) (timestamp : Int) : String :=
  id ++ ":" ++ email ++ ":" ++ toString timestamp

/-- generateCollectionToken: sha256 of `collectionId:email:timestamp`. -/
def generateCollectionToken (hash : String → String) (collectionId email : String)
    (timestamp : Int) : String :=
  hash (tokenPayload collectionId email timestamp)

/-- validateCollectionToken: reject when `now - timestamp` exceeds the 30-minute
    window, otherwise compare with the recomputed hash. -/
def validateCollectionToken (hash : String → String) (now : Int)
    (collectionId email token : String) (timestamp : Int) : Bool :=
  if now - timestamp > COLLECTION_TOKEN_VALIDITY_MS then false
  else token == generateCollectionToken hash collectionId email timestamp

/-- The two failure modes of the inline file-token check in the download route
    (`Date.now() - tokenTime > TOKEN_VALIDITY_MS` → 410, hash mismatch → 403). -/
inductive TokenError where
  | expiredWindow
  | invalidHash
deriving Repr, DecidableEq

/-- The file-download route's token check, exactly as sequenced in
    api/share/download/[id].ts (window first, then hash comparison). -/
def fileTokenCheck (hash : String → String) (now : Int) (id email token : String)
    (timestamp : Int) : Option TokenError :=
  if now - timestamp > TOKEN_VALIDITY_MS then some .expiredWindow
  else if token ≠ hash (tokenPayload id email timestamp) then some .invalidHash
  else none

/-- isFileExpired: `new Date(expiresAt) < new Date()`; null means never expires. -/
def isFileExpired (now : Int) (expiresAt : Option Int) : Bool :=
  match expiresAt with
  | none => false
  | some t => t < now

/-- isCollectionExpired: identical body to isFileExpired. -/
def isCollectionExpired (now : Int) (expiresAt : Option Int) : Bool :=
  match expiresAt with
  | none => false
  | some t => t < now

/-- parseAllowedEmails: the JSON column is embedded at its parsed type, so the
    null case maps to `[]` exactly as in the source. -/
def parseAllowedEmails (emails : Option (List String)) : List String :=
  match emails with
  | none => []
  | some l => l

/-! ## Data model (files and collections tables) -/

/-- A row of the `files` table (columns that the embedded handlers read or write). -/
structure FileRow where
  id : String
  filename : String
  r2Key : String
  fileSize : Int
  mimeType : String
  expiresAt : Option Int
  passwordHash : Option String
  allowedEmails : Option (List String)
  collectionId : Option String
  downloadCount : Int
  isDeleted : Bool
deriving Repr, DecidableEq

/-- A row of the `collections` table. -/
structure CollectionRow where
  id : String
  parentId : Option String
  title : String
  expiresAt : Option Int
  passwordHash : Option String
  allowedEmails : Option (List String)
  depth : Nat
  itemCount : Int
  downloadCount : Int
  isDeleted : Bool
deriving Repr, DecidableEq

/-- The relational store: the two tables the core reads and writes. -/
structure DB where
  files : List FileRow
  collections : List CollectionRow
deriving Repr, DecidableEq

/-- `SELECT ... FROM files WHERE id = ? AND is_deleted = 0` (first match). -/
def findLiveFile (db : DB) (fid : String) : Option FileRow :=
  db.files.find? (fun f => f.id == fid && !f.isDeleted)

/-- `SELECT ... FROM collections WHERE id = ? AND is_deleted = 0` (first match). -/
def findLiveCollection (db : DB) (cid : String) : Option CollectionRow :=
  db.collections.find? (fun c => c.id == cid && !c.isDeleted)

/-- `UPDATE files SET download_count = download_count + 1 WHERE id = ?`. -/
def bumpFileDownloadCount (db : DB) (fid : String) : DB :=
  { db with files := db.files.map (fun f =>
      if f.id == fid then { f with downloadCount := f.downloadCount + 1 } else f) }

/-- `UPDATE collections SET download_count = download_count + 1 WHERE id = ?`. -/
def bumpCollectionDownloadCount (db : DB) (cid : String) : DB :=
  { db with collections := db.collections.map (fun c =>
      if c.id == cid then { c with downloadCount := c.downloadCount + 1 } else c) }

/-! ## Breadcrumbs (getCollectionBreadcrumbs) -/

/-- An entry of the breadcrumb path returned by getCollectionBreadcrumbs. -/
structure BreadcrumbItem where
  id : String
  title : String
deriving Repr, DecidableEq

/-- The while-loop of getCollectionBreadcrumbs: look up the current collection
    (live rows only), prepend ancestors, stop at a missing/deleted row or a null
    parent.  Fuel bounds the walk; `db.collections.length` steps suffice for the
    acyclic states the operations produce. -/
def breadcrumbWalk (db : DB) : Nat → String → List BreadcrumbItem
  | 0, _ => []
  | fuel + 1, currentId =>
    match findLiveCollection db currentId with
    | none => []
    | some c =>
      (match c.parentId with
       | none => []
       | some p => breadcrumbWalk db fuel p) ++ [⟨c.id, c.title⟩]

/-- getCollectionBreadcrumbs: root-first chain of live ancestors ending at the
    requested collection. -/
def getCollectionBreadcrumbs (db : DB) (collectionId : String) : List BreadcrumbItem :=
  breadcrumbWalk db db.collections.length collectionId

/-- The route-level check `breadcrumbs.some(b => b.id === rootId)`. -/
def isUnderRoot (db : DB) (collectionId rootId : String) : Bool :=
  (getCollectionBreadcrumbs db collectionId).any (fun b => b.id == rootId)

/-! ## Permission resolver (checkCollectionAccess) -/

/-- Result of checkCollectionAccess. -/
inductive CollectionAccess where
  | allowed (rootCollectionId : String)
  | denied (reason : String)
deriving Repr, DecidableEq

/-- checkCollectionAccess: breadcrumb walk to the root, then evaluate the ROOT
    collection's expiry / email allow-list / password, in that order.  The JS
    falsy test `if (!password)` also treats the empty string as missing, which
    the `pw = ""` branch mirrors.  The nested source conditionals
    `if (allowed_emails) { if (length > 0 && !includes) ... }` are flattened
    into one guard with identical control flow. -/
def checkCollectionAccess (hash : String → String) (db : DB) (now : Int)
    (collectionId email : String) (password : Option String) : CollectionAccess :=
  match getCollectionBreadcrumbs db collectionId with
  | [] => .denied "Collection not found"
  | root :: _ =>
    match findLiveCollection db root.id with
    | none => .denied "Collection not found"
    | some rootCollection =>
      if isCollectionExpired now rootCollection.expiresAt then
        .denied "Collection has expired"
      else
        let allowedEmails := parseAllowedEmails rootCollection.allowedEmails
        if rootCollection.allowedEmails.isSome && decide (allowedEmails ≠ []) &&
            !((allowedEmails.map String.toLower).contains email.toLower) then
          .denied "Email not authorized"
        else
          match rootCollection.passwordHash with
          | none => .allowed rootCollection.id
          | some h =>
            match password with
            | none => .denied "Password required"
            | some pw =>
              if pw = "" then .denied "Password required"
              else if hash pw ≠ h then .denied "Invalid password"
              else .allowed rootCollection.id

/-! ## Audit-log rows -/

/-- A row of `access_logs` (per-file access audit).  ip_address, user_agent and
    location are request metadata threaded through unchanged and are omitted. -/
structure AccessLogRow where
  fileId : String
  email : String
  action : String
  success : Bool
  failureReason : Option String
deriving Repr, DecidableEq

/-- The logAccess helper of the access-validation route. -/
def logAccess (fileId email action : String) (success : Bool)
    (failureReason : Option String) : AccessLogRow :=
  ⟨fileId, email, action, success, failureReason⟩

/-- A row of `collection_access_logs`. -/
structure CollectionLogRow where
  collectionId : String
  email : String
  action : String
  success : Bool
  failureReason : Option String
deriving Repr, DecidableEq

/-- A row of `file_audit_log` (storage audit). -/
structure StorageAuditRow where
  fileId : String
  operation : String
  r2Key : String
  fileSize : Option Int
  status : String
  errorMessage : Option String
deriving Repr, DecidableEq

/-! ## File access-validation route (the POST handler that checks a file's
    policy, logs the attempt, and issues a 5-minute download token) -/

/-- Responses of the file access-validation POST handler. -/
inductive FileAccessResp where
  | emailRequired
  | invalidEmail (reason : String)
  | fileNotFound
  | fileExpired
  | emailNotAuthorized
  | passwordRequired
  | incorrectPassword
  | granted (downloadToken : String) (timestamp : Int)
deriving Repr, DecidableEq

/-- The file access-validation POST handler.  `email`/`password` are the JSON
    body fields (absent or empty string is falsy, as in JS);
    `emailInvalidReason` is the outcome of the external validateEmailFull
    collaborator (format + DNS MX lookup): `none` when valid, otherwise the
    reason code.  Returns the response, the access_logs rows inserted, and the
    updated database.  Note which branches insert no log row: missing/invalid
    email, file not found, and password required. -/
def validateFileAccess (hash : String → String) (db : DB) (now : Int)
    (fileId : String) (email : Option String) (password : Option String)
    (emailInvalidReason : Option String) :
    FileAccessResp × List AccessLogRow × DB :=
  match email with
  | none => (.emailRequired, [], db)
  | some em =>
    if em = "" then (.emailRequired, [], db)
    else
      match emailInvalidReason with
      | some r => (.invalidEmail r, [], db)
      | none =>
        match findLiveFile db fileId with
        | none => (.fileNotFound, [], db)
        | some file =>
          if isFileExpired now file.expiresAt then
            (.fileExpired, [logAccess fileId em "download" false (some "File expired")], db)
          else
            let allowedEmails := parseAllowedEmails file.allowedEmails
            if decide (allowedEmails ≠ []) &&
                !(allowedEmails.any (fun e => e.toLower == em.toLower)) then
              (.emailNotAuthorized,
               [logAccess fileId em "download" false (some "Email not authorized")], db)
            else
              match file.passwordHash with
              | none =>
                (.granted (hash (tokenPayload fileId em now)) now,
                 [logAccess fileId em "download" true none],
                 bumpFileDownloadCount db fileId)
              | some h =>
                match password with
                | none => (.passwordRequired, [], db)
                | some pw =>
                  if pw = "" then (.passwordRequired, [], db)
                  else if hash pw ≠ h then
                    (.incorrectPassword,
                     [logAccess fileId em "download" false (some "Invalid password")], db)
                  else
                    (.granted (hash (tokenPayload fileId em now)) now,
                     [logAccess fileId em "download" true none],
                     bumpFileDownloadCount db fileId)

/-! ## Collection access-validation route (issues a 30-minute collection token) -/

/-- Responses of the collection access-validation POST handler. -/
inductive CollValidateResp where
  | emailRequired
  | invalidEmail (reason : String)
  | denied (reason : String)
  | granted (token : String) (timestamp : Int) (rootCollectionId : String)
deriving Repr, DecidableEq

/-- The collection access-validation POST handler.  After the external email
    validation it always inserts exactly one collection_access_logs row whose
    success flag and failure reason mirror the checkCollectionAccess outcome.
    The route passes `password || null` down, so an empty password string
    reaches the resolver as null. -/
def collectionValidateAccess (hash : String → String) (db : DB) (now : Int)
    (collectionId : String) (email : Option String) (password : Option String)
    (emailInvalidReason : Option String) :
    CollValidateResp × List CollectionLogRow :=
  match email with
  | none => (.emailRequired, [])
  | some em =>
    if em = "" then (.emailRequired, [])
    else
      match emailInvalidReason with
      | some r =>
        let reason := if r = "invalid_format" then "Invalid email format" else "Invalid email domain"
        (.invalidEmail reason, [⟨collectionId, em, "view", false, some reason⟩])
      | none =>
        let pw : Option String :=
          match password with
          | none => none
          | some s => if s = "" then none else some s
        match checkCollectionAccess hash db now collectionId em pw with
        | .denied reason =>
          (.denied reason, [⟨collectionId, em, "view", false, some reason⟩])
        | .allowed rootId =>
          (.granted (generateCollectionToken hash rootId em now) now rootId,
           [⟨collectionId, em, "view", true, none⟩])

/-! ## Blob store -/

/-- The blob store observed through get/head: a key/size association.  The
    routes only use an object's presence and reported size. -/
def BlobStore : Type := List (String × Int)

/-- `bucket.get(key)` / `bucket.head(key)`: presence and size. -/
def blobGet (blob : BlobStore) (key : String) : Option Int :=
  ((blob : List (String × Int)).find? (fun kv => kv.1 == key)).map (fun kv => kv.2)

/-! ## Single-file download route (api/share/download/[id].ts) -/

/-- Responses of the single-file download GET handler. -/
inductive DownloadResp where
  | missingParams
  | linkExpired
  | badToken
  | fileNotFound
  | missingInStorage
  | streamed (r2Key : String) (size : Int) (mimeType filename : String)
deriving Repr, DecidableEq

/-- The single-file download GET handler: token window and hash check, file
    lookup, blob fetch, stream.  It inserts no access_logs row and no
    file_audit_log row on any path, which the two returned lists record. -/
def fileDownloadGET (hash : String → String) (db : DB) (blob : BlobStore) (now : Int)
    (id : String) (token : Option String) (timestamp : Option Int)
    (email : Option String) :
    DownloadResp × List AccessLogRow × List StorageAuditRow :=
  match token, timestamp, email with
  | some tok, some ts, some em =>
    match fileTokenCheck hash now id em tok ts with
    | some .expiredWindow => (.linkExpired, [], [])
    | some .invalidHash => (.badToken, [], [])
    | none =>
      match findLiveFile db id with
      | none => (.fileNotFound, [], [])
      | some file =>
        match blobGet blob file.r2Key with
        | none => (.missingInStorage, [], [])
        | some size => (.streamed file.r2Key size file.mimeType file.filename, [], [])
  | _, _, _ => (.missingParams, [], [])

/-! ## Collection file download route
    (api/share/collections/[id]/download/[fileId].ts) -/

/-- Responses of the collection file download GET handler. -/
inductive CollDownloadResp where
  | missingToken
  | invalidToken
  | fileNotFound
  | notInCollection
  | accessDenied
  | collectionExpired
  | missingInStorage
  | streamed (r2Key : String) (size : Int) (mimeType filename : String)
deriving Repr, DecidableEq

/-- The collection file download GET handler: validate the collection token
    against the claimed root id, fetch the file, check it belongs to the
    requested collection, confirm via the breadcrumb walk that the collection
    is under the claimed root, re-check the root's expiry, then stream —
    logging to file_audit_log and collection_access_logs and bumping the
    download counters. -/
def collectionFileDownloadGET (hash : String → String) (db : DB) (blob : BlobStore)
    (now : Int) (collectionId fileId : String)
    (token : Option String) (timestamp : Option Int) (email rootId : Option String) :
    CollDownloadResp × List StorageAuditRow × List CollectionLogRow × DB :=
  match token, timestamp, email, rootId with
  | some tok, some ts, some em, some rid =>
    if !(validateCollectionToken hash now rid em tok ts) then (.invalidToken, [], [], db)
    else
      match findLiveFile db fileId with
      | none => (.fileNotFound, [], [], db)
      | some file =>
        if file.collectionId ≠ some collectionId then (.notInCollection, [], [], db)
        else if !(isUnderRoot db collectionId rid) then (.accessDenied, [], [], db)
        else
          let rootExpired :=
            match findLiveCollection db rid with
            | some rc => isCollectionExpired now rc.expiresAt
            | none => false
          if rootExpired then (.collectionExpired, [], [], db)
          else
            match blobGet blob file.r2Key with
            | none =>
              (.missingInStorage,
               [⟨fileId, "download", file.r2Key, none, "missing",
                 some "File not found in R2 storage (collection download)"⟩],
               [], db)
            | some size =>
              (.streamed file.r2Key size file.mimeType file.filename,
               [⟨fileId, "download", file.r2Key, some size, "success", none⟩],
               [⟨collectionId, em, "download_file", true, none⟩],
               bumpCollectionDownloadCount (bumpFileDownloadCount db fileId) rid)
  | _, _, _, _ => (.missingToken, [], [], db)

/-! ## Token-gated collection contents route (browse) -/

/-- Responses of the token-gated collection-contents GET handler.  The listing
    carries the ids of the live direct children (sub-collections then files);
    their title/filename ordering does not matter for the properties below. -/
inductive BrowseResp where
  | missingToken
  | invalidToken
  | collectionNotFound
  | accessDenied
  | collectionExpired
  | listing (childIds : List String)
deriving Repr, DecidableEq

/-- The token-gated collection-contents GET handler. -/
def collectionBrowseGET (hash : String → String) (db : DB) (now : Int)
    (id : String) (token : Option String) (timestamp : Option Int)
    (email rootId : Option String) : BrowseResp :=
  match token, timestamp, email, rootId with
  | some tok, some ts, some em, some rid =>
    if !(validateCollectionToken hash now rid em tok ts) then .invalidToken
    else
      match findLiveCollection db id with
      | none => .collectionNotFound
      | some _ =>
        if !(isUnderRoot db id rid) then .accessDenied
        else
          let rootExpired :=
            match findLiveCollection db rid with
            | some rc => isCollectionExpired now rc.expiresAt
            | none => false
          if rootExpired then .collectionExpired
          else
            .listing
              ((db.collections.filter (fun c => c.parentId == some id && !c.isDeleted)).map
                  (fun c => c.id)
               ++ (db.files.filter (fun f => f.collectionId == some id && !f.isDeleted)).map
                  (fun f => f.id))
  | _, _, _, _ => .missingToken

/-! ## Upload verification (api/share/upload.ts, after the R2 put) -/

/-- What the upload handler does after writing the blob: the head-check
    verdicts, the file_audit_log rows inserted, whether the files row was
    created, and whether the blob was deleted. -/
structure UploadOutcome where
  audit : List StorageAuditRow
  fileRowCreated : Bool
  blobDeleted : Bool
  errorReturned : Bool
deriving Repr, DecidableEq

/-- The post-put verification of the upload handler: head the key; absence →
    audit failure and error with no row; size mismatch → audit failure with the
    exact mismatch, delete the blob, error with no row; otherwise audit success
    and create the row. -/
def uploadAfterPut (headResult : Option Int) (fileSize : Int) (fileId r2Key : String) :
    UploadOutcome :=
  match headResult with
  | none =>
    ⟨[⟨fileId, "upload", r2Key, some fileSize, "failed",
       some "R2 verification failed - file not found after upload"⟩],
     false, false, true⟩
  | some sz =>
    if sz ≠ fileSize then
      ⟨[⟨fileId, "upload", r2Key, some fileSize, "failed",
         some ("Size mismatch: expected " ++ toString fileSize ++ ", got " ++ toString sz)⟩],
       false, true, true⟩
    else
      ⟨[⟨fileId, "upload", r2Key, some fileSize, "success", none⟩],
       true, false, false⟩

/-! ## File deletion route (api/share/files/[id].ts DELETE) -/

/-- Whether the `bucket.delete` call resolved or rejected. -/
inductive BlobDeleteOutcome where
  | ok
  | threw
deriving Repr, DecidableEq

/-- Responses of the file DELETE handler. -/
inductive FileDeleteResp where
  | fileNotFound
  | serverError
  | deleted
deriving Repr, DecidableEq

/-- `UPDATE collections SET item_count = item_count + 1 WHERE id = ?`, per row. -/
def bumpIf (cid : String) (c : CollectionRow) : CollectionRow :=
  if c.id == cid then { c with itemCount := c.itemCount + 1 } else c

/-- `UPDATE collections SET item_count = item_count - 1 WHERE id = ?`, per row. -/
def decIf (cid : String) (c : CollectionRow) : CollectionRow :=
  if c.id == cid then { c with itemCount := c.itemCount - 1 } else c

/-- `UPDATE files SET is_deleted = 1 WHERE id = ?`, per row. -/
def softDeleteIf (fid : String) (f : FileRow) : FileRow :=
  if f.id == fid then { f with isDeleted := true } else f

/-- The file DELETE handler: look up the live file, delete its blob (a rejected
    promise jumps to the catch block before anything else runs), insert a
    file_audit_log row with status hard-coded to success, soft-delete the row,
    and decrement the owning collection's item_count when there is one. -/
def fileDeleteDELETE (db : DB) (blobOutcome : BlobDeleteOutcome) (id : String) :
    FileDeleteResp × List StorageAuditRow × DB :=
  match findLiveFile db id with
  | none => (.fileNotFound, [], db)
  | some file =>
    match blobOutcome with
    | .threw => (.serverError, [], db)
    | .ok =>
      let db1 : DB := { db with files := db.files.map (softDeleteIf id) }
      let db2 : DB :=
        match file.collectionId with
        | some cid => { db1 with collections := db1.collections.map (decIf cid) }
        | none => db1
      (.deleted, [⟨id, "delete", file.r2Key, some file.fileSize, "success", none⟩], db2)

/-! ## Cascade delete (api/share/collections/[id]/index.ts DELETE) -/

/-- `SELECT parent_id FROM collections WHERE id = ?` (no deleted filter). -/
def parentOf (cols : List CollectionRow) (cid : String) : Option String :=
  match cols.find? (fun c => c.id == cid) with
  | none => none
  | some c => c.parentId

/-- The recursive-CTE reachability: `reaches cols fuel y x` holds when walking
    parent links upward from `y` (through deleted rows as well, as the CTE
    does) hits `x` within `fuel` steps.  `y` is a descendant of `x` exactly
    when this holds with sufficient fuel. -/
def reaches (cols : List CollectionRow) : Nat → String → String → Bool
  | 0, y, x => y == x
  | n + 1, y, x =>
    y == x ||
      match parentOf cols y with
      | some p => reaches cols n p x
      | none => false

/-- Marking a collection row deleted when its id is in the descendant set. -/
def markColIf (inDesc : String → Bool) (c : CollectionRow) : CollectionRow :=
  if inDesc c.id then { c with isDeleted := true } else c

/-- Whether a file row sits in one of the cascade-deleted collections. -/
def fileHit (inDesc : String → Bool) (f : FileRow) : Bool :=
  match f.collectionId with
  | some oc => inDesc oc
  | none => false

/-- Marking a file row deleted when its collection is in the descendant set. -/
def markFileIf (inDesc : String → Bool) (f : FileRow) : FileRow :=
  if fileHit inDesc f then { f with isDeleted := true } else f

/-- The descendant set computed by the recursive CTE: ids whose upward parent
    walk reaches `cid`. -/
def descOf (db : DB) (cid : String) : String → Bool :=
  fun y => reaches db.collections db.collections.length y cid

/-- The collection DELETE handler's database effect: mark the target and every
    descendant collection deleted, mark every file in those collections
    deleted, then decrement the parent's item_count when the target had a
    parent.  A missing or already-deleted target returns 404 with no change. -/
def deleteCollectionCascade (db : DB) (cid : String) : DB :=
  match findLiveCollection db cid with
  | none => db
  | some target =>
    { files := db.files.map (markFileIf (descOf db cid)),
      collections :=
        match target.parentId with
        | some p => (db.collections.map (markColIf (descOf db cid))).map (decIf p)
        | none => db.collections.map (markColIf (descOf db cid)) }

/-! ## The mutating operations as a state machine -/

/-- A fresh root collection row (POST api/share/collections). -/
def mkRootRow (id : String) (expiresAt : Option Int) (passwordHash : Option String)
    (allowedEmails : Option (List String)) : CollectionRow :=
  { id := id, parentId := none, title := id, expiresAt := expiresAt,
    passwordHash := passwordHash, allowedEmails := allowedEmails,
    depth := 1, itemCount := 0, downloadCount := 0, isDeleted := false }

/-- A fresh sub-collection row (POST create sub-collection): no policy fields,
    depth one below the parent. -/
def mkSubRow (id parentId : String) (depth : Nat) : CollectionRow :=
  { id := id, parentId := some parentId, title := id, expiresAt := none,
    passwordHash := none, allowedEmails := none,
    depth := depth, itemCount := 0, downloadCount := 0, isDeleted := false }

/-- A fresh file row inside a collection (POST add-file): no policy fields. -/
def mkCollectionFileRow (id collectionId : String) : FileRow :=
  { id := id, filename := id, r2Key := "files/" ++ id ++ "/" ++ id, fileSize := 0,
    mimeType := "application/pdf", expiresAt := none, passwordHash := none,
    allowedEmails := none, collectionId := some collectionId,
    downloadCount := 0, isDeleted := false }

/-- A fresh standalone file row (POST api/share/upload). -/
def mkStandaloneFileRow (id : String) : FileRow :=
  { id := id, filename := id, r2Key := "files/" ++ id ++ "/" ++ id, fileSize := 0,
    mimeType := "application/pdf", expiresAt := none, passwordHash := none,
    allowedEmails := none, collectionId := none,
    downloadCount := 0, isDeleted := false }

/-- The row-mutating operations of the core: creating resources, adding files
    to collections, and the two delete handlers. -/
inductive Op where
  | createRootCollection (id : String) (expiresAt : Option Int)
      (passwordHash : Option String) (allowedEmails : Option (List String))
  | createSubCollection (id parentId : String)
  | addFileToCollection (fileId collectionId : String)
  | uploadStandaloneFile (fileId : String)
  | deleteFile (fileId : String)
  | deleteCollection (id : String)
deriving Repr, DecidableEq

/-- Database effect of one operation.  Guards mirror the handlers: parent/
    collection must exist and be live, depth below the bound; an id collision
    violates the PRIMARY KEY so the insert throws and nothing changes. -/
def applyOp (db : DB) : Op → DB
  | .createRootCollection id expiresAt passwordHash allowedEmails =>
    if db.collections.any (fun c => c.id == id) then db
    else { db with collections :=
            db.collections ++ [mkRootRow id expiresAt passwordHash allowedEmails] }
  | .createSubCollection id parentId =>
    match findLiveCollection db parentId with
    | none => db
    | some parent =>
      if MAX_COLLECTION_DEPTH ≤ parent.depth then db
      else if db.collections.any (fun c => c.id == id) then db
      else
        { db with collections :=
            db.collections.map (bumpIf parentId) ++ [mkSubRow id parentId (parent.depth + 1)] }
  | .addFileToCollection fileId collectionId =>
    match findLiveCollection db collectionId with
    | none => db
    | some _ =>
      if db.files.any (fun f => f.id == fileId) then db
      else
        { files := db.files ++ [mkCollectionFileRow fileId collectionId],
          collections := db.collections.map (bumpIf collectionId) }
  | .uploadStandaloneFile fileId =>
    if db.files.any (fun f => f.id == fileId) then db
    else { db with files := db.files ++ [mkStandaloneFileRow fileId] }
  | .deleteFile fileId => (fileDeleteDELETE db .ok fileId).2.2
  | .deleteCollection id => deleteCollectionCascade db id

/-- Fold a sequence of operations over a database. -/
def applyOps (db : DB) (ops : List Op) : DB :=
  ops.foldl applyOp db

/-- The empty store. -/
def initialDB : DB := ⟨[], []⟩

/-- Number of live (non-deleted) direct children of a collection: the rows a
    listing query returns (`WHERE parent_id = ? AND is_deleted = 0` plus
    `WHERE collection_id = ? AND is_deleted = 0`). -/
def liveChildCount (db : DB) (pid : String) : Nat :=
  db.collections.countP (fun c => c.parentId == some pid && !c.isDeleted)
  + db.files.countP (fun f => f.collectionId == some pid && !f.isDeleted)

/-- `IsDesc cols root y`: `y` is `root` itself or a transitive child of it over
    parent links, the spec's "transitive closure over parent links". -/
inductive IsDesc (cols : List CollectionRow) (root : String) : String → Prop where
  | refl : IsDesc cols root root
  | step (c : CollectionRow) (p : String) :
      c ∈ cols → c.parentId = some p → IsDesc cols root p → IsDesc cols root c.id

/-- Structural invariants of the store maintained by every operation. -/
structure Inv (db : DB) : Prop where
  colNodup : (db.collections.map (fun c => c.id)).Nodup
  fileNodup : (db.files.map (fun f => f.id)).Nodup
  depthPos : ∀ c ∈ db.collections, 1 ≤ c.depth
  depthBound : ∀ c ∈ db.collections, c.depth ≤ db.collections.length
  parentRes : ∀ c ∈ db.collections, ∀ p, c.parentId = some p →
      ∃ pr ∈ db.collections, pr.id = p ∧ pr.depth + 1 = c.depth ∧
        (c.isDeleted = false → pr.isDeleted = false)
  fileColRes : ∀ f ∈ db.files, ∀ cid, f.collectionId = some cid →
      ∃ c ∈ db.collections, c.id = cid ∧ (f.isDeleted = false → c.isDeleted = false)
  countOk : ∀ c ∈ db.collections, c.isDeleted = false →
      c.itemCount = (liveChildCount db c.id : Int)

/-! ## Generic list lemmas (unique keys, counting under row updates) -/

theorem eq_of_key_nodup {α : Type} (key : α → String) {l : List α} {a b : α}
    (h : (l.map key).Nodup) (ha : a ∈ l) (hb : b ∈ l) (hk : key a = key b) : a = b := by
  induction l with
  | nil => cases ha
  | cons x t ih =>
    rw [List.map_cons, List.nodup_cons] at h
    cases ha with
    | head =>
      cases hb with
      | head => rfl
      | tail _ hb' => exact absurd (hk ▸ List.mem_map_of_mem key hb') h.1
    | tail _ ha' =>
      cases hb with
      | head => exact absurd (hk ▸ List.mem_map_of_mem key ha') h.1
      | tail _ hb' => exact ih h.2 ha' hb'

theorem count_key_nodup {α : Type} [DecidableEq α] (key : α → String) {l : List α} {a : α}
    (h : (l.map key).Nodup) (ha : a ∈ l) : l.count a = 1 := by
  induction l with
  | nil => cases ha
  | cons x t ih =>
    rw [List.map_cons, List.nodup_cons] at h
    by_cases hxa : x = a
    · subst hxa
      have hnt : x ∉ t := fun hmem => h.1 (List.mem_map_of_mem key hmem)
      rw [List.count_cons_self, List.count_eq_zero.mpr hnt]
    · have ha' : a ∈ t := by
        cases ha with
        | head => exact absurd rfl hxa
        | tail _ h' => exact h'
      rw [List.count_cons_of_ne (fun he => hxa he.symm) t]
      exact ih h.2 ha'

theorem find?_key_self {α : Type} (key : α → String) {l : List α} {a : α}
    (h : (l.map key).Nodup) (ha : a ∈ l) :
    l.find? (fun b => key b == key a) = some a := by
  induction l with
  | nil => cases ha
  | cons x t ih =>
    rw [List.map_cons, List.nodup_cons] at h
    by_cases hpx : key x = key a
    · have hx : x = a := by
        cases ha with
        | head => rfl
        | tail _ ha' => exact absurd (hpx ▸ List.mem_map_of_mem key ha') h.1
      subst hx
      exact List.find?_cons_of_pos _ (by simp)
    · have ha' : a ∈ t := by
        cases ha with
        | head => exact absurd rfl hpx
        | tail _ h' => exact h'
      rw [List.find?_cons_of_neg _ (by simpa using hpx)]
      exact ih h.2 ha'

/-- Counting after changing the predicate's value at one element that occurs
    exactly once.  Stated additively to stay in `Nat`. -/
theorem countP_update {α : Type} [DecidableEq α] {l : List α} {a : α} {p q : α → Bool}
    (hcount : l.count a = 1)
    (h : ∀ b ∈ l, b ≠ a → q b = p b) :
    l.countP q + (if p a then 1 else 0) = l.countP p + (if q a then 1 else 0) := by
  induction l with
  | nil => simp at hcount
  | cons x t ih =>
    by_cases hxa : x = a
    · subst hxa
      rw [List.count_cons_self] at hcount
      have ht : x ∉ t := List.count_eq_zero.mp (by omega)
      have heq : t.countP q = t.countP p :=
        List.countP_congr (fun b hb => by
          rw [h b (List.mem_cons_of_mem _ hb) (fun hba => ht (hba ▸ hb))])
      rw [List.countP_cons, List.countP_cons, heq]
      by_cases hp : p x = true <;> by_cases hq : q x = true <;> simp [hp, hq]
    · rw [List.count_cons_of_ne (fun he => hxa he.symm) t] at hcount
      have hqp : q x = p x := h x (List.mem_cons_self _ _) hxa
      have := ih hcount (fun b hb hba => h b (List.mem_cons_of_mem _ hb) hba)
      rw [List.countP_cons, List.countP_cons, hqp]
      omega

theorem countP_map_eq {α : Type} {l : List α} (g : α → α) (p : α → Bool)
    (h : ∀ a ∈ l, p (g a) = p a) : (l.map g).countP p = l.countP p := by
  rw [List.countP_map]
  exact List.countP_congr (fun a ha => by simp [Function.comp, h a ha])

theorem find?_map_pres {α : Type} (l : List α) (g : α → α) (p : α → Bool)
    (h : ∀ a, p (g a) = p a) : (l.map g).find? p = (l.find? p).map g := by
  rw [List.find?_map]
  have : (p ∘ g) = p := funext h
  rw [this]

/-! ## Reachability lemmas for the cascade CTE -/

theorem reaches_self (cols : List CollectionRow) (n : Nat) (y : String) :
    reaches cols n y y = true := by
  cases n <;> simp [reaches]

theorem reaches_succ (cols : List CollectionRow) (n : Nat) (y x : String) :
    reaches cols (n + 1) y x =
      (y == x ||
        match parentOf cols y with
        | some p => reaches cols n p x
        | none => false) := rfl

theorem reaches_toDesc (cols : List CollectionRow) (x : String) :
    ∀ n y, reaches cols n y x = true → IsDesc cols x y := by
  intro n
  induction n with
  | zero =>
    intro y h
    simp only [reaches, beq_iff_eq] at h
    exact h ▸ IsDesc.refl
  | succ m ih =>
    intro y h
    rw [reaches_succ] at h
    by_cases hyx : y = x
    · exact hyx ▸ IsDesc.refl
    · rw [Bool.or_eq_true] at h
      rcases h with h1 | h2
      · exact absurd (by simpa using h1) hyx
      · cases hp : parentOf cols y with
        | none => rw [hp] at h2; cases h2
        | some p =>
          rw [hp] at h2
          unfold parentOf at hp
          cases hfind : cols.find? (fun c => c.id == y) with
          | none => rw [hfind] at hp; cases hp
          | some c =>
            rw [hfind] at hp
            have hcy : c.id = y := by simpa using List.find?_some hfind
            have hcmem := List.mem_of_find?_eq_some hfind
            exact hcy ▸ IsDesc.step c p hcmem hp (ih p h2)

theorem parentOf_eq_self (db : DB) (hnd : (db.collections.map (fun c => c.id)).Nodup)
    {r : CollectionRow} (hr : r ∈ db.collections) :
    parentOf db.collections r.id = r.parentId := by
  unfold parentOf
  rw [find?_key_self (fun c => c.id) hnd hr]

theorem reaches_succ_parent (cols : List CollectionRow) (n : Nat) (y x p : String)
    (hp : parentOf cols y = some p) :
    reaches cols (n + 1) y x = (y == x || reaches cols n p x) := by
  rw [reaches_succ, hp]

theorem reaches_succ_noparent (cols : List CollectionRow) (n : Nat) (y x : String)
    (hp : parentOf cols y = none) :
    reaches cols (n + 1) y x = (y == x) := by
  rw [reaches_succ, hp]
  exact Bool.or_false _

theorem reaches_stab (db : DB) (hInv : Inv db) (x : String) :
    ∀ n, ∀ r ∈ db.collections, r.depth ≤ n + 1 →
      reaches db.collections (n + 1) r.id x = reaches db.collections n r.id x := by
  intro n
  induction n using Nat.strong_induction_on with
  | _ n ih =>
    intro r hr hd
    have hpo := parentOf_eq_self db hInv.colNodup hr
    cases hpar : r.parentId with
    | none =>
      have hn := hpo.trans hpar
      cases n with
      | zero => rw [reaches_succ_noparent _ _ _ _ hn]; rfl
      | succ m =>
        rw [reaches_succ_noparent _ _ _ _ hn, reaches_succ_noparent _ _ _ _ hn]
    | some p =>
      obtain ⟨pr, hpr, hprid, hprd, _⟩ := hInv.parentRes r hr p hpar
      have hs := hpo.trans hpar
      cases n with
      | zero =>
        exfalso
        have h1 := hInv.depthPos pr hpr
        omega
      | succ m =>
        have hdle : pr.depth ≤ m + 1 := by omega
        have hstab := ih m (by omega) pr hpr hdle
        rw [hprid] at hstab
        rw [reaches_succ_parent _ _ _ _ _ hs, reaches_succ_parent _ _ _ _ _ hs, hstab]

theorem desc_toReaches (db : DB) (hInv : Inv db) (x : String) :
    ∀ y, IsDesc db.collections x y →
      reaches db.collections db.collections.length y x = true := by
  intro y h
  induction h with
  | refl => exact reaches_self _ _ _
  | step c p hc hp _ ih =>
    have hlen : 0 < db.collections.length := List.length_pos.mpr (fun he => by
      rw [he] at hc; cases hc)
    obtain ⟨m, hm⟩ : ∃ m, db.collections.length = m + 1 :=
      ⟨db.collections.length - 1, by omega⟩
    have hpo := (parentOf_eq_self db hInv.colNodup hc).trans hp
    rw [hm, reaches_succ_parent _ _ _ _ _ hpo]
    obtain ⟨pr, hpr, hprid, _, _⟩ := hInv.parentRes c hc p hp
    have hdle : pr.depth ≤ m + 1 := by
      have := hInv.depthBound pr hpr
      omega
    have hstab := reaches_stab db hInv x m pr hpr hdle
    rw [hprid] at hstab
    rw [hm] at ih
    rw [hstab] at ih
    simp [ih]

theorem reaches_iff_isDesc (db : DB) (hInv : Inv db) (x y : String) :
    reaches db.collections db.collections.length y x = true ↔ IsDesc db.collections x y :=
  ⟨reaches_toDesc db.collections x db.collections.length y, desc_toReaches db hInv x y⟩

theorem isDesc_cases (cols : List CollectionRow) (x y : String) (h : IsDesc cols x y) :
    y = x ∨ ∃ c ∈ cols, c.id = y ∧ ∃ p, c.parentId = some p ∧ IsDesc cols x p := by
  cases h with
  | refl => exact Or.inl rfl
  | step c p hc hp hd => exact Or.inr ⟨c, hc, rfl, p, hp, hd⟩

/-! ## Preservation of the invariants by each operation -/

theorem any_key_false {α : Type} (key : α → String) {l : List α} {id : String}
    (h : ¬ l.any (fun c => key c == id) = true) : ∀ c ∈ l, key c ≠ id := by
  intro c hc he
  exact h (List.any_eq_true.mpr ⟨c, hc, by simp [he]⟩)

/-- A collection id no row carries (and hence, by parent/file resolution, no
    row points at) has no live children. -/
theorem liveChildCount_fresh (db : DB) (hInv : Inv db) {id : String}
    (hfresh : ∀ c ∈ db.collections, c.id ≠ id) :
    liveChildCount db id = 0 := by
  have h1 : db.collections.countP (fun c => c.parentId == some id && !c.isDeleted) = 0 := by
    rw [List.countP_eq_zero]
    intro c hc hp
    rw [Bool.and_eq_true] at hp
    have hpid : c.parentId = some id := by simpa using hp.1
    obtain ⟨pr, hpr, hprid, _, _⟩ := hInv.parentRes c hc id hpid
    exact hfresh pr hpr hprid
  have h2 : db.files.countP (fun f => f.collectionId == some id && !f.isDeleted) = 0 := by
    rw [List.countP_eq_zero]
    intro f hf hp
    rw [Bool.and_eq_true] at hp
    have hcid : f.collectionId = some id := by simpa using hp.1
    obtain ⟨c, hc, hcid2, _⟩ := hInv.fileColRes f hf id hcid
    exact hfresh c hc hcid2
  unfold liveChildCount
  rw [h1, h2]

theorem inv_createRoot (db : DB) (hInv : Inv db) (id : String) (e : Option Int)
    (ph : Option String) (ae : Option (List String)) :
    Inv (applyOp db (.createRootCollection id e ph ae)) := by
  simp only [applyOp]
  by_cases hcoll : db.collections.any (fun c => c.id == id) = true
  · rw [if_pos hcoll]; exact hInv
  · rw [if_neg hcoll]
    have hfresh := any_key_false (fun c : CollectionRow => c.id) hcoll
    refine ⟨?_, hInv.fileNodup, ?_, ?_, ?_, ?_, ?_⟩
    · simp only [List.map_append, List.map_cons, List.map_nil]
      rw [List.nodup_append]
      refine ⟨hInv.colNodup, List.nodup_singleton _, ?_⟩
      intro a ha hb
      rw [List.mem_singleton] at hb
      subst hb
      obtain ⟨c, hc, hcid⟩ := List.mem_map.mp ha
      exact hfresh c hc (by simpa [mkRootRow] using hcid)
    · intro c hc
      rcases List.mem_append.mp hc with h | h
      · exact hInv.depthPos c h
      · rw [List.mem_singleton] at h; subst h; simp [mkRootRow]
    · intro c hc
      simp only [List.length_append, List.length_cons, List.length_nil]
      rcases List.mem_append.mp hc with h | h
      · have := hInv.depthBound c h; omega
      · rw [List.mem_singleton] at h; subst h; simp [mkRootRow]
    · intro c hc p hp
      rcases List.mem_append.mp hc with h | h
      · obtain ⟨pr, hpr, h1, h2, h3⟩ := hInv.parentRes c h p hp
        exact ⟨pr, List.mem_append_left _ hpr, h1, h2, h3⟩
      · rw [List.mem_singleton] at h; subst h
        simp [mkRootRow] at hp
    · intro f hf cid hcid
      obtain ⟨c, hc, h1, h2⟩ := hInv.fileColRes f hf cid hcid
      exact ⟨c, List.mem_append_left _ hc, h1, h2⟩
    · intro c hc hlive
      have hpR : ∀ pid, ((mkRootRow id e ph ae).parentId == some pid &&
          !(mkRootRow id e ph ae).isDeleted) = false := by
        intro pid; simp [mkRootRow]
      rcases List.mem_append.mp hc with h | h
      · have hold := hInv.countOk c h hlive
        have hcount :
            liveChildCount { db with collections := db.collections ++ [mkRootRow id e ph ae] } c.id
              = liveChildCount db c.id := by
          unfold liveChildCount
          simp only [List.countP_append, List.countP_singleton, hpR c.id]
          simp
        rw [hcount]
        exact hold
      · rw [List.mem_singleton] at h; subst h
        have hfr := liveChildCount_fresh db hInv hfresh
        have hcount :
            liveChildCount { db with collections := db.collections ++ [mkRootRow id e ph ae] }
              (mkRootRow id e ph ae).id = 0 := by
          unfold liveChildCount at hfr ⊢
          simp only [List.countP_append, List.countP_singleton] at hfr ⊢
          have hid : (mkRootRow id e ph ae).id = id := rfl
          rw [hid, hpR id]
          simp at hfr ⊢
          exact hfr
        rw [hcount]
        simp [mkRootRow]

theorem inv_uploadFile (db : DB) (hInv : Inv db) (fid : String) :
    Inv (applyOp db (.uploadStandaloneFile fid)) := by
  simp only [applyOp]
  by_cases hcoll : db.files.any (fun f => f.id == fid) = true
  · rw [if_pos hcoll]; exact hInv
  · rw [if_neg hcoll]
    have hfresh := any_key_false (fun f : FileRow => f.id) hcoll
    refine ⟨hInv.colNodup, ?_, hInv.depthPos, hInv.depthBound, hInv.parentRes, ?_, ?_⟩
    · simp only [List.map_append, List.map_cons, List.map_nil]
      rw [List.nodup_append]
      refine ⟨hInv.fileNodup, List.nodup_singleton _, ?_⟩
      intro a ha hb
      rw [List.mem_singleton] at hb
      subst hb
      obtain ⟨f, hf, hfid⟩ := List.mem_map.mp ha
      exact hfresh f hf (by simpa [mkStandaloneFileRow] using hfid)
    · intro f hf cid hcid
      rcases List.mem_append.mp hf with h | h
      · exact hInv.fileColRes f h cid hcid
      · rw [List.mem_singleton] at h; subst h
        simp [mkStandaloneFileRow] at hcid
    · intro c hc hlive
      have hold := hInv.countOk c hc hlive
      have hpF : ((mkStandaloneFileRow fid).collectionId == some c.id &&
          !(mkStandaloneFileRow fid).isDeleted) = false := by
        simp [mkStandaloneFileRow]
      have hcount :
          liveChildCount { db with files := db.files ++ [mkStandaloneFileRow fid] } c.id
            = liveChildCount db c.id := by
        unfold liveChildCount
        simp only [List.countP_append, List.countP_singleton, hpF]
        simp
      rw [hcount]
      exact hold

theorem bumpIf_id (cid : String) (c : CollectionRow) : (bumpIf cid c).id = c.id := by
  unfold bumpIf; split <;> rfl

theorem bumpIf_parentId (cid : String) (c : CollectionRow) :
    (bumpIf cid c).parentId = c.parentId := by
  unfold bumpIf; split <;> rfl

theorem bumpIf_depth (cid : String) (c : CollectionRow) : (bumpIf cid c).depth = c.depth := by
  unfold bumpIf; split <;> rfl

theorem bumpIf_isDeleted (cid : String) (c : CollectionRow) :
    (bumpIf cid c).isDeleted = c.isDeleted := by
  unfold bumpIf; split <;> rfl

theorem bumpIf_itemCount (cid : String) (c : CollectionRow) :
    (bumpIf cid c).itemCount = if c.id = cid then c.itemCount + 1 else c.itemCount := by
  unfold bumpIf; by_cases h : c.id = cid <;> simp [h]

theorem decIf_id (cid : String) (c : CollectionRow) : (decIf cid c).id = c.id := by
  unfold decIf; split <;> rfl

theorem decIf_parentId (cid : String) (c : CollectionRow) :
    (decIf cid c).parentId = c.parentId := by
  unfold decIf; split <;> rfl

theorem decIf_depth (cid : String) (c : CollectionRow) : (decIf cid c).depth = c.depth := by
  unfold decIf; split <;> rfl

theorem decIf_isDeleted (cid : String) (c : CollectionRow) :
    (decIf cid c).isDeleted = c.isDeleted := by
  unfold decIf; split <;> rfl

theorem decIf_itemCount (cid : String) (c : CollectionRow) :
    (decIf cid c).itemCount = if c.id = cid then c.itemCount - 1 else c.itemCount := by
  unfold decIf; by_cases h : c.id = cid <;> simp [h]

theorem softDeleteIf_id (fid : String) (f : FileRow) : (softDeleteIf fid f).id = f.id := by
  unfold softDeleteIf; split <;> rfl

theorem softDeleteIf_collectionId (fid : String) (f : FileRow) :
    (softDeleteIf fid f).collectionId = f.collectionId := by
  unfold softDeleteIf; split <;> rfl

theorem softDeleteIf_isDeleted (fid : String) (f : FileRow) :
    (softDeleteIf fid f).isDeleted = if f.id = fid then true else f.isDeleted := by
  unfold softDeleteIf; by_cases h : f.id = fid <;> simp [h]

theorem markColIf_id (d : String → Bool) (c : CollectionRow) : (markColIf d c).id = c.id := by
  unfold markColIf; split <;> rfl

theorem markColIf_parentId (d : String → Bool) (c : CollectionRow) :
    (markColIf d c).parentId = c.parentId := by
  unfold markColIf; split <;> rfl

theorem markColIf_depth (d : String → Bool) (c : CollectionRow) :
    (markColIf d c).depth = c.depth := by
  unfold markColIf; split <;> rfl

theorem markColIf_itemCount (d : String → Bool) (c : CollectionRow) :
    (markColIf d c).itemCount = c.itemCount := by
  unfold markColIf; split <;> rfl

theorem markColIf_isDeleted (d : String → Bool) (c : CollectionRow) :
    (markColIf d c).isDeleted = (d c.id || c.isDeleted) := by
  unfold markColIf; by_cases h : d c.id = true <;> simp [h]

theorem markFileIf_id (d : String → Bool) (f : FileRow) : (markFileIf d f).id = f.id := by
  unfold markFileIf; split <;> rfl

theorem markFileIf_collectionId (d : String → Bool) (f : FileRow) :
    (markFileIf d f).collectionId = f.collectionId := by
  unfold markFileIf; split <;> rfl

theorem markFileIf_isDeleted (d : String → Bool) (f : FileRow) :
    (markFileIf d f).isDeleted = (fileHit d f || f.isDeleted) := by
  unfold markFileIf; by_cases h : fileHit d f = true <;> simp [h]

theorem findLiveCollection_spec (db : DB) (cid : String) (c : CollectionRow)
    (h : findLiveCollection db cid = some c) :
    c ∈ db.collections ∧ c.id = cid ∧ c.isDeleted = false := by
  unfold findLiveCollection at h
  refine ⟨List.mem_of_find?_eq_some h, ?_⟩
  have hp := List.find?_some h
  simp only [Bool.and_eq_true, beq_iff_eq, Bool.not_eq_true'] at hp
  exact hp

theorem findLiveFile_spec (db : DB) (fid : String) (f : FileRow)
    (h : findLiveFile db fid = some f) :
    f ∈ db.files ∧ f.id = fid ∧ f.isDeleted = false := by
  unfold findLiveFile at h
  refine ⟨List.mem_of_find?_eq_some h, ?_⟩
  have hp := List.find?_some h
  simp only [Bool.and_eq_true, beq_iff_eq, Bool.not_eq_true'] at hp
  exact hp

theorem inv_createSub (db : DB) (hInv : Inv db) (id parentId : String) :
    Inv (applyOp db (.createSubCollection id parentId)) := by
  cases hpf : findLiveCollection db parentId with
  | none => simp only [applyOp, hpf]; exact hInv
  | some parent =>
    by_cases hdep : MAX_COLLECTION_DEPTH ≤ parent.depth
    · simp only [applyOp, hpf, if_pos hdep]; exact hInv
    · by_cases hcoll : db.collections.any (fun c => c.id == id) = true
      · simp only [applyOp, hpf, if_neg hdep, if_pos hcoll]; exact hInv
      · simp only [applyOp, hpf, if_neg hdep, if_neg hcoll]
        have hfresh := any_key_false (fun c : CollectionRow => c.id) hcoll
        obtain ⟨hpmem, hpid, hplive⟩ := findLiveCollection_spec db parentId parent hpf
        have hpneq : parentId ≠ id := hpid ▸ hfresh parent hpmem
        refine ⟨?_, hInv.fileNodup, ?_, ?_, ?_, ?_, ?_⟩
        · simp only [List.map_append, List.map_cons, List.map_nil, List.map_map]
          have hids : db.collections.map ((fun c : CollectionRow => c.id) ∘ bumpIf parentId)
              = db.collections.map (fun c : CollectionRow => c.id) :=
            List.map_congr_left (fun a _ => bumpIf_id parentId a)
          rw [hids, List.nodup_append]
          refine ⟨hInv.colNodup, List.nodup_singleton _, ?_⟩
          intro a ha hb
          rw [List.mem_singleton] at hb
          subst hb
          obtain ⟨c, hc, hcid⟩ := List.mem_map.mp ha
          exact hfresh c hc (by simpa [mkSubRow] using hcid)
        · intro c hc
          rcases List.mem_append.mp hc with h | h
          · obtain ⟨r, hr, hrc⟩ := List.mem_map.mp h
            subst hrc
            rw [bumpIf_depth]
            exact hInv.depthPos r hr
          · rw [List.mem_singleton] at h; subst h
            simp [mkSubRow]
        · intro c hc
          have hlen : (db.collections.map (bumpIf parentId)
              ++ [mkSubRow id parentId (parent.depth + 1)]).length
              = db.collections.length + 1 := by simp
          rw [hlen]
          rcases List.mem_append.mp hc with h | h
          · obtain ⟨r, hr, hrc⟩ := List.mem_map.mp h
            subst hrc
            rw [bumpIf_depth]
            have := hInv.depthBound r hr; omega
          · rw [List.mem_singleton] at h; subst h
            have := hInv.depthBound parent hpmem
            show parent.depth + 1 ≤ db.collections.length + 1
            omega
        · intro c hc p hp
          rcases List.mem_append.mp hc with h | h
          · obtain ⟨r, hr, hrc⟩ := List.mem_map.mp h
            subst hrc
            rw [bumpIf_parentId] at hp
            obtain ⟨pr, hpr, h1, h2, h3⟩ := hInv.parentRes r hr p hp
            refine ⟨bumpIf parentId pr,
              List.mem_append_left _ (List.mem_map_of_mem _ hpr), ?_, ?_, ?_⟩
            · rw [bumpIf_id]; exact h1
            · rw [bumpIf_depth, bumpIf_depth]; exact h2
            · rw [bumpIf_isDeleted, bumpIf_isDeleted]; exact h3
          · rw [List.mem_singleton] at h; subst h
            have hp' : parentId = p := by simpa [mkSubRow] using hp
            subst hp'
            refine ⟨bumpIf parentId parent,
              List.mem_append_left _ (List.mem_map_of_mem _ hpmem), ?_, ?_, ?_⟩
            · rw [bumpIf_id]; exact hpid
            · rw [bumpIf_depth]; rfl
            · intro _; rw [bumpIf_isDeleted]; exact hplive
        · intro f hf cid hcid
          obtain ⟨c, hc, h1, h2⟩ := hInv.fileColRes f hf cid hcid
          exact ⟨bumpIf parentId c, List.mem_append_left _ (List.mem_map_of_mem _ hc),
                 by rw [bumpIf_id]; exact h1, by rw [bumpIf_isDeleted]; exact h2⟩
        · intro c hc hlive
          rcases List.mem_append.mp hc with h | h
          · obtain ⟨r, hr, hrc⟩ := List.mem_map.mp h
            subst hrc
            rw [bumpIf_isDeleted] at hlive
            have hold := hInv.countOk r hr hlive
            rw [bumpIf_itemCount, bumpIf_id]
            have hcc : liveChildCount
                { db with collections := db.collections.map (bumpIf parentId)
                    ++ [mkSubRow id parentId (parent.depth + 1)] } r.id
                = liveChildCount db r.id + (if parentId = r.id then 1 else 0) := by
              unfold liveChildCount
              simp only [List.countP_append, List.countP_singleton]
              rw [countP_map_eq (bumpIf parentId) _
                (fun a _ => by simp only [bumpIf_parentId, bumpIf_isDeleted])]
              have hSp : (if ((mkSubRow id parentId (parent.depth + 1)).parentId == some r.id &&
                  !(mkSubRow id parentId (parent.depth + 1)).isDeleted) then 1 else 0)
                  = (if parentId = r.id then 1 else 0) := by
                by_cases h2 : parentId = r.id <;> simp [mkSubRow, h2]
              rw [hSp]
              omega
            rw [hcc]
            by_cases hpr2 : parentId = r.id
            · rw [if_pos hpr2.symm, if_pos hpr2]
              push_cast
              omega
            · rw [if_neg (fun h2 => hpr2 h2.symm), if_neg hpr2]
              push_cast
              omega
          · rw [List.mem_singleton] at h; subst h
            have hfr := liveChildCount_fresh db hInv hfresh
            have hcc : liveChildCount
                { db with collections := db.collections.map (bumpIf parentId)
                    ++ [mkSubRow id parentId (parent.depth + 1)] }
                (mkSubRow id parentId (parent.depth + 1)).id = 0 := by
              unfold liveChildCount at hfr ⊢
              simp only [List.countP_append, List.countP_singleton]
              have hSid : (mkSubRow id parentId (parent.depth + 1)).id = id := rfl
              rw [hSid]
              rw [countP_map_eq (bumpIf parentId) _
                (fun a _ => by simp only [bumpIf_parentId, bumpIf_isDeleted])]
              have hSp : ((mkSubRow id parentId (parent.depth + 1)).parentId == some id &&
                  !(mkSubRow id parentId (parent.depth + 1)).isDeleted) = false := by
                simp [mkSubRow, hpneq]
              rw [hSp]
              simp only [Bool.false_eq_true, if_false]
              omega
            rw [hcc]
            rfl

theorem softDeleteIf_noop (fid : String) (b : FileRow) (h : b.id ≠ fid) :
    softDeleteIf fid b = b := by
  unfold softDeleteIf
  rw [if_neg (by simpa using h)]

theorem inv_addFile (db : DB) (hInv : Inv db) (fid cid : String) :
    Inv (applyOp db (.addFileToCollection fid cid)) := by
  cases hcf : findLiveCollection db cid with
  | none => simp only [applyOp, hcf]; exact hInv
  | some c0 =>
    by_cases hcoll : db.files.any (fun f => f.id == fid) = true
    · simp only [applyOp, hcf, if_pos hcoll]; exact hInv
    · simp only [applyOp, hcf, if_neg hcoll]
      have hfresh := any_key_false (fun f : FileRow => f.id) hcoll
      obtain ⟨hcmem, hcid0, hclive⟩ := findLiveCollection_spec db cid c0 hcf
      refine ⟨?_, ?_, ?_, ?_, ?_, ?_, ?_⟩
      · simp only [List.map_map]
        have hids : db.collections.map ((fun c : CollectionRow => c.id) ∘ bumpIf cid)
            = db.collections.map (fun c : CollectionRow => c.id) :=
          List.map_congr_left (fun a _ => bumpIf_id cid a)
        rw [hids]; exact hInv.colNodup
      · simp only [List.map_append, List.map_cons, List.map_nil]
        rw [List.nodup_append]
        refine ⟨hInv.fileNodup, List.nodup_singleton _, ?_⟩
        intro a ha hb
        rw [List.mem_singleton] at hb
        subst hb
        obtain ⟨f, hf, hfid⟩ := List.mem_map.mp ha
        exact hfresh f hf (by simpa [mkCollectionFileRow] using hfid)
      · intro c hc
        obtain ⟨r, hr, hrc⟩ := List.mem_map.mp hc
        subst hrc
        rw [bumpIf_depth]; exact hInv.depthPos r hr
      · intro c hc
        have hlen : (db.collections.map (bumpIf cid)).length = db.collections.length := by
          simp
        rw [hlen]
        obtain ⟨r, hr, hrc⟩ := List.mem_map.mp hc
        subst hrc
        rw [bumpIf_depth]; exact hInv.depthBound r hr
      · intro c hc p hp
        obtain ⟨r, hr, hrc⟩ := List.mem_map.mp hc
        subst hrc
        rw [bumpIf_parentId] at hp
        obtain ⟨pr, hpr, h1, h2, h3⟩ := hInv.parentRes r hr p hp
        refine ⟨bumpIf cid pr, List.mem_map_of_mem _ hpr, ?_, ?_, ?_⟩
        · rw [bumpIf_id]; exact h1
        · rw [bumpIf_depth, bumpIf_depth]; exact h2
        · rw [bumpIf_isDeleted, bumpIf_isDeleted]; exact h3
      · intro f hf cid2 hcid2
        rcases List.mem_append.mp hf with h | h
        · obtain ⟨cc, hcc2, h1, h2⟩ := hInv.fileColRes f h cid2 hcid2
          exact ⟨bumpIf cid cc, List.mem_map_of_mem _ hcc2,
                 by rw [bumpIf_id]; exact h1, by rw [bumpIf_isDeleted]; exact h2⟩
        · rw [List.mem_singleton] at h; subst h
          have hc2 : cid2 = cid := by
            have h4 : cid = cid2 := by simpa [mkCollectionFileRow] using hcid2
            exact h4.symm
          subst hc2
          exact ⟨bumpIf cid2 c0, List.mem_map_of_mem _ hcmem,
                 by rw [bumpIf_id]; exact hcid0,
                 fun _ => by rw [bumpIf_isDeleted]; exact hclive⟩
      · intro c hc hlive
        obtain ⟨r, hr, hrc⟩ := List.mem_map.mp hc
        subst hrc
        rw [bumpIf_isDeleted] at hlive
        have hold := hInv.countOk r hr hlive
        rw [bumpIf_itemCount, bumpIf_id]
        have hcc : liveChildCount
            { files := db.files ++ [mkCollectionFileRow fid cid],
              collections := db.collections.map (bumpIf cid) } r.id
            = liveChildCount db r.id + (if cid = r.id then 1 else 0) := by
          unfold liveChildCount
          simp only [List.countP_append, List.countP_singleton]
          rw [countP_map_eq (bumpIf cid) _
            (fun a _ => by simp only [bumpIf_parentId, bumpIf_isDeleted])]
          have hFp : (if ((mkCollectionFileRow fid cid).collectionId == some r.id &&
              !(mkCollectionFileRow fid cid).isDeleted) then 1 else 0)
              = (if cid = r.id then 1 else 0) := by
            by_cases h2 : cid = r.id <;> simp [mkCollectionFileRow, h2]
          rw [hFp]
          omega
        rw [hcc]
        by_cases h2 : cid = r.id
        · rw [if_pos h2.symm, if_pos h2]
          push_cast; omega
        · rw [if_neg (fun h3 => h2 h3.symm), if_neg h2]
          push_cast; omega

theorem inv_deleteFile (db : DB) (hInv : Inv db) (fid : String) :
    Inv (applyOp db (.deleteFile fid)) := by
  simp only [applyOp]
  cases hff : findLiveFile db fid with
  | none => simp only [fileDeleteDELETE, hff]; exact hInv
  | some f =>
    obtain ⟨hfmem, hfid, hflive⟩ := findLiveFile_spec db fid f hff
    have hcount1 := count_key_nodup (fun b : FileRow => b.id) hInv.fileNodup hfmem
    have hexc : ∀ b ∈ db.files, b ≠ f → softDeleteIf fid b = b := by
      intro b hb hbne
      refine softDeleteIf_noop fid b (fun hbid => hbne ?_)
      exact eq_of_key_nodup (fun x : FileRow => x.id) hInv.fileNodup hb hfmem
        (by show b.id = f.id; rw [hbid, hfid])
    have hfileIds : (db.files.map (softDeleteIf fid)).map (fun b : FileRow => b.id)
        = db.files.map (fun b : FileRow => b.id) := by
      rw [List.map_map]
      exact List.map_congr_left (fun a _ => softDeleteIf_id fid a)
    have hfilesCount : ∀ pid : String,
        (db.files.map (softDeleteIf fid)).countP
            (fun b => b.collectionId == some pid && !b.isDeleted)
          + (if (f.collectionId == some pid && !f.isDeleted) then 1 else 0)
        = db.files.countP (fun b => b.collectionId == some pid && !b.isDeleted) := by
      intro pid
      rw [List.countP_map]
      have hq : ∀ b ∈ db.files, b ≠ f →
          ((fun x => x.collectionId == some pid && !x.isDeleted) ∘ softDeleteIf fid) b
            = (fun x : FileRow => x.collectionId == some pid && !x.isDeleted) b := by
        intro b hb hbne
        simp only [Function.comp, hexc b hb hbne]
      have hqf : ((fun x => x.collectionId == some pid && !x.isDeleted) ∘ softDeleteIf fid) f
          = false := by
        simp only [Function.comp, softDeleteIf_collectionId, softDeleteIf_isDeleted, hfid,
          if_pos rfl]
        simp
      have := countP_update hcount1 hq
      rw [hqf] at this
      simpa using this
    cases hfc : f.collectionId with
    | none =>
      simp only [fileDeleteDELETE, hff, hfc]
      refine ⟨hInv.colNodup, ?_, hInv.depthPos, hInv.depthBound, hInv.parentRes, ?_, ?_⟩
      · rw [hfileIds]; exact hInv.fileNodup
      · intro g hg cid hcid
        obtain ⟨b, hb, hbg⟩ := List.mem_map.mp hg
        subst hbg
        rw [softDeleteIf_collectionId] at hcid
        obtain ⟨c, hc, h1, h2⟩ := hInv.fileColRes b hb cid hcid
        refine ⟨c, hc, h1, fun hlv => ?_⟩
        rw [softDeleteIf_isDeleted] at hlv
        by_cases hbid : b.id = fid
        · rw [if_pos hbid] at hlv; cases hlv
        · rw [if_neg hbid] at hlv; exact h2 hlv
      · intro c hc hlive
        have hold := hInv.countOk c hc hlive
        have hpf : (f.collectionId == some c.id && !f.isDeleted) = false := by
          rw [hfc]; simp
        have hfc2 := hfilesCount c.id
        rw [hpf] at hfc2
        simp at hfc2
        unfold liveChildCount at hold ⊢
        dsimp only
        rw [List.countP_map, hfc2]
        exact hold
    | some cid =>
      simp only [fileDeleteDELETE, hff, hfc]
      have hcolIds : (db.collections.map (decIf cid)).map (fun c : CollectionRow => c.id)
          = db.collections.map (fun c : CollectionRow => c.id) := by
        rw [List.map_map]
        exact List.map_congr_left (fun a _ => decIf_id cid a)
      refine ⟨?_, ?_, ?_, ?_, ?_, ?_, ?_⟩
      · rw [hcolIds]; exact hInv.colNodup
      · rw [hfileIds]; exact hInv.fileNodup
      · intro c hc
        obtain ⟨r, hr, hrc⟩ := List.mem_map.mp hc
        subst hrc
        rw [decIf_depth]; exact hInv.depthPos r hr
      · intro c hc
        have hlen : (db.collections.map (decIf cid)).length = db.collections.length := by
          simp
        rw [hlen]
        obtain ⟨r, hr, hrc⟩ := List.mem_map.mp hc
        subst hrc
        rw [decIf_depth]; exact hInv.depthBound r hr
      · intro c hc p hp
        obtain ⟨r, hr, hrc⟩ := List.mem_map.mp hc
        subst hrc
        rw [decIf_parentId] at hp
        obtain ⟨pr, hpr, h1, h2, h3⟩ := hInv.parentRes r hr p hp
        refine ⟨decIf cid pr, List.mem_map_of_mem _ hpr, ?_, ?_, ?_⟩
        · rw [decIf_id]; exact h1
        · rw [decIf_depth, decIf_depth]; exact h2
        · rw [decIf_isDeleted, decIf_isDeleted]; exact h3
      · intro g hg cid2 hcid2
        obtain ⟨b, hb, hbg⟩ := List.mem_map.mp hg
        subst hbg
        rw [softDeleteIf_collectionId] at hcid2
        obtain ⟨c, hc, h1, h2⟩ := hInv.fileColRes b hb cid2 hcid2
        refine ⟨decIf cid c, List.mem_map_of_mem _ hc, by rw [decIf_id]; exact h1,
          fun hlv => ?_⟩
        rw [softDeleteIf_isDeleted] at hlv
        rw [decIf_isDeleted]
        by_cases hbid : b.id = fid
        · rw [if_pos hbid] at hlv; cases hlv
        · rw [if_neg hbid] at hlv; exact h2 hlv
      · intro c hc hlive
        obtain ⟨r, hr, hrc⟩ := List.mem_map.mp hc
        subst hrc
        rw [decIf_isDeleted] at hlive
        have hold := hInv.countOk r hr hlive
        rw [decIf_itemCount, decIf_id]
        have hpf : (f.collectionId == some r.id && !f.isDeleted)
            = (cid == r.id) := by
          rw [hfc, hflive]; simp
        have hfc2 := hfilesCount r.id
        rw [hpf] at hfc2
        have hcolsSame : (db.collections.map (decIf cid)).countP
            (fun c => c.parentId == some r.id && !c.isDeleted)
            = db.collections.countP (fun c => c.parentId == some r.id && !c.isDeleted) :=
          countP_map_eq (decIf cid) _
            (fun a _ => by simp only [decIf_parentId, decIf_isDeleted])
        unfold liveChildCount at hold ⊢
        dsimp only
        rw [hcolsSame, List.countP_map]
        by_cases h2 : r.id = cid
        · rw [if_pos h2]
          have hbeq : (cid == r.id) = true := by rw [h2]; simp
          rw [hbeq] at hfc2
          simp at hfc2
          push_cast
          omega
        · rw [if_neg h2]
          have hbeq : (cid == r.id) = false := by
            rw [beq_eq_false_iff_ne]
            exact fun h3 => h2 h3.symm
          rw [hbeq] at hfc2
          simp at hfc2
          push_cast
          omega

theorem markColIf_noop (d : String → Bool) (c : CollectionRow) (h : d c.id = false) :
    markColIf d c = c := by
  unfold markColIf; simp [h]

theorem markFileIf_noop (d : String → Bool) (f : FileRow) (h : fileHit d f = false) :
    markFileIf d f = f := by
  unfold markFileIf; simp [h]

theorem iteBoolTrue : (if (true : Bool) = true then (1 : Nat) else 0) = 1 := rfl

theorem iteBoolFalse : (if (false : Bool) = true then (1 : Nat) else 0) = 0 := rfl

theorem inv_deleteCascade (db : DB) (hInv : Inv db) (cid : String) :
    Inv (applyOp db (.deleteCollection cid)) := by
  simp only [applyOp]
  unfold deleteCollectionCascade
  cases htf : findLiveCollection db cid with
  | none => exact hInv
  | some target =>
    obtain ⟨htmem, htid, htlive⟩ := findLiveCollection_spec db cid target htf
    have hcountT := count_key_nodup (fun c : CollectionRow => c.id) hInv.colNodup htmem
    have hchar : ∀ y, descOf db cid y = true ↔ IsDesc db.collections cid y :=
      fun y => reaches_iff_isDesc db hInv cid y
    have hdtarget : descOf db cid cid = true := reaches_self _ _ _
    have huniq : ∀ b ∈ db.collections, b.id = cid → b = target := fun b hb hbid =>
      eq_of_key_nodup (fun x : CollectionRow => x.id) hInv.colNodup hb htmem
        (by show b.id = target.id; rw [hbid, htid])
    have hstep : ∀ r ∈ db.collections, ∀ p, r.parentId = some p →
        descOf db cid p = true → descOf db cid r.id = true := by
      intro r hr p hp hdp
      exact (hchar r.id).mpr (IsDesc.step r p hr hp ((hchar p).mp hdp))
    have hcharRow : ∀ r ∈ db.collections, descOf db cid r.id = true →
        r.id = cid ∨ ∃ p, r.parentId = some p ∧ descOf db cid p = true := by
      intro r hr hd
      rcases isDesc_cases _ _ _ ((hchar r.id).mp hd) with h | ⟨c, hc, hcid2, p, hp, hdp⟩
      · exact Or.inl h
      · have hcr : c = r :=
          eq_of_key_nodup (fun x : CollectionRow => x.id) hInv.colNodup hc hr hcid2
        exact Or.inr ⟨p, hcr ▸ hp, (hchar p).mpr hdp⟩
    have hchild : ∀ r ∈ db.collections, descOf db cid r.id = false →
        ∀ b ∈ db.collections, b.parentId = some r.id →
          descOf db cid b.id = true → b = target := by
      intro r hr hdr b hb hbp hdb
      rcases hcharRow b hb hdb with h | ⟨p, hp, hdp⟩
      · exact huniq b hb h
      · rw [hbp] at hp
        have hpr : p = r.id := (Option.some.inj hp).symm
        rw [hpr] at hdp
        rw [hdp] at hdr
        cases hdr
    have hliveNotDesc : ∀ r ∈ db.collections, r.isDeleted = false →
        ∀ p, r.parentId = some p → descOf db cid p = false →
        True := fun _ _ _ _ _ _ => trivial
    have hcolsCount : ∀ r ∈ db.collections, descOf db cid r.id = false →
        (db.collections.map (markColIf (descOf db cid))).countP
            (fun c => c.parentId == some r.id && !c.isDeleted)
          + (if target.parentId = some r.id then 1 else 0)
        = db.collections.countP (fun c => c.parentId == some r.id && !c.isDeleted) := by
      intro r hr hdr
      rw [List.countP_map]
      have hq : ∀ b ∈ db.collections, b ≠ target →
          ((fun c => c.parentId == some r.id && !c.isDeleted) ∘ markColIf (descOf db cid)) b
            = (fun c : CollectionRow => c.parentId == some r.id && !c.isDeleted) b := by
        intro b hb hbne
        simp only [Function.comp_apply]
        by_cases hbp : b.parentId = some r.id
        · have hdb : descOf db cid b.id = false := by
            cases h4 : descOf db cid b.id with
            | false => rfl
            | true => exact absurd (hchild r hr hdr b hb hbp h4) hbne
          rw [markColIf_noop _ _ hdb]
        · simp only [markColIf_parentId, markColIf_isDeleted]
          have hne : (b.parentId == some r.id) = false := by
            rw [beq_eq_false_iff_ne]; exact hbp
          rw [hne]
          simp
      have hthis := countP_update hcountT hq
      have hqt : ((fun c => c.parentId == some r.id && !c.isDeleted) ∘
          markColIf (descOf db cid)) target = false := by
        simp only [Function.comp_apply, markColIf_parentId, markColIf_isDeleted]
        have hdt : descOf db cid target.id = true := by rw [htid]; exact hdtarget
        rw [hdt]
        simp
      have hpt : (if ((fun c : CollectionRow => c.parentId == some r.id && !c.isDeleted)
          target) then (1 : Nat) else 0)
          = (if target.parentId = some r.id then 1 else 0) := by
        by_cases h4 : target.parentId = some r.id <;> simp [h4, htlive]
      rw [hqt, hpt, iteBoolFalse, Nat.add_zero] at hthis
      exact hthis
    have hfilesCountC : ∀ rid : String, descOf db cid rid = false →
        (db.files.map (markFileIf (descOf db cid))).countP
            (fun b => b.collectionId == some rid && !b.isDeleted)
        = db.files.countP (fun b => b.collectionId == some rid && !b.isDeleted) := by
      intro rid hdr
      apply countP_map_eq
      intro b _
      by_cases hbc : b.collectionId = some rid
      · have hfh : fileHit (descOf db cid) b = false := by
          unfold fileHit; rw [hbc]; exact hdr
        rw [markFileIf_noop _ _ hfh]
      · simp only [markFileIf_collectionId, markFileIf_isDeleted]
        have hne : (b.collectionId == some rid) = false := by
          rw [beq_eq_false_iff_ne]; exact hbc
        rw [hne]
        simp
    have hfileIds : (db.files.map (markFileIf (descOf db cid))).map (fun b : FileRow => b.id)
        = db.files.map (fun b : FileRow => b.id) := by
      rw [List.map_map]
      exact List.map_congr_left (fun a _ => markFileIf_id _ a)
    have hFileCol : ∀ g ∈ db.files.map (markFileIf (descOf db cid)), ∀ cid2,
        g.collectionId = some cid2 → g.isDeleted = false →
        ∃ b ∈ db.files, g = markFileIf (descOf db cid) b ∧ b.collectionId = some cid2 ∧
          b.isDeleted = false ∧ descOf db cid cid2 = false := by
      intro g hg cid2 hgc hgl
      obtain ⟨b, hb, hbg⟩ := List.mem_map.mp hg
      subst hbg
      rw [markFileIf_collectionId] at hgc
      rw [markFileIf_isDeleted] at hgl
      have hfh : fileHit (descOf db cid) b = false := by
        cases h4 : fileHit (descOf db cid) b with
        | false => rfl
        | true => rw [h4] at hgl; cases hgl
      have hbl : b.isDeleted = false := by
        rw [hfh] at hgl; simpa using hgl
      have hdc : descOf db cid cid2 = false := by
        have := hfh
        unfold fileHit at this
        rw [hgc] at this
        exact this
      exact ⟨b, hb, rfl, hgc, hbl, hdc⟩
    cases hpar : target.parentId with
    | none =>
      dsimp only
      rw [hpar]
      dsimp only
      refine ⟨?_, ?_, ?_, ?_, ?_, ?_, ?_⟩
      · rw [List.map_map]
        have hids : db.collections.map
            ((fun c : CollectionRow => c.id) ∘ markColIf (descOf db cid))
            = db.collections.map (fun c : CollectionRow => c.id) :=
          List.map_congr_left (fun a _ => markColIf_id _ a)
        rw [hids]; exact hInv.colNodup
      · rw [hfileIds]; exact hInv.fileNodup
      · intro c hc
        obtain ⟨r, hr, hrc⟩ := List.mem_map.mp hc
        subst hrc
        rw [markColIf_depth]; exact hInv.depthPos r hr
      · intro c hc
        have hlen : (db.collections.map (markColIf (descOf db cid))).length
            = db.collections.length := by simp
        rw [hlen]
        obtain ⟨r, hr, hrc⟩ := List.mem_map.mp hc
        subst hrc
        rw [markColIf_depth]; exact hInv.depthBound r hr
      · intro c hc p hp
        obtain ⟨r, hr, hrc⟩ := List.mem_map.mp hc
        subst hrc
        rw [markColIf_parentId] at hp
        obtain ⟨pr, hpr, h1, h2, h3⟩ := hInv.parentRes r hr p hp
        refine ⟨markColIf (descOf db cid) pr, List.mem_map_of_mem _ hpr, ?_, ?_, ?_⟩
        · rw [markColIf_id]; exact h1
        · rw [markColIf_depth, markColIf_depth]; exact h2
        · intro hlv
          rw [markColIf_isDeleted] at hlv
          have hdr : descOf db cid r.id = false := by
            cases h4 : descOf db cid r.id with
            | false => rfl
            | true => rw [h4] at hlv; cases hlv
          have hrl : r.isDeleted = false := by
            rw [hdr] at hlv; simpa using hlv
          have hdp : descOf db cid pr.id = false := by
            cases h4 : descOf db cid pr.id with
            | false => rfl
            | true =>
              have := hstep r hr pr.id (h1 ▸ hp) h4
              rw [this] at hdr; cases hdr
          rw [markColIf_isDeleted, hdp, h3 hrl]
          rfl
      · intro g hg cid2 hgc
        obtain ⟨b, hb, hbg⟩ := List.mem_map.mp hg
        subst hbg
        rw [markFileIf_collectionId] at hgc
        obtain ⟨c, hc, h1, h2⟩ := hInv.fileColRes b hb cid2 hgc
        refine ⟨markColIf (descOf db cid) c, List.mem_map_of_mem _ hc,
          by rw [markColIf_id]; exact h1, ?_⟩
        intro hlv
        rw [markFileIf_isDeleted] at hlv
        have hfh : fileHit (descOf db cid) b = false := by
          cases h4 : fileHit (descOf db cid) b with
          | false => rfl
          | true => rw [h4] at hlv; cases hlv
        have hbl : b.isDeleted = false := by
          rw [hfh] at hlv; simpa using hlv
        have hdc : descOf db cid c.id = false := by
          have h5 := hfh
          unfold fileHit at h5
          rw [hgc] at h5
          rw [h1]; exact h5
        rw [markColIf_isDeleted, hdc, h2 hbl]
        rfl
      · intro c hc hlv
        obtain ⟨r, hr, hrc⟩ := List.mem_map.mp hc
        subst hrc
        rw [markColIf_isDeleted] at hlv
        have hdr : descOf db cid r.id = false := by
          cases h4 : descOf db cid r.id with
          | false => rfl
          | true => rw [h4] at hlv; cases hlv
        have hrl : r.isDeleted = false := by
          rw [hdr] at hlv; simpa using hlv
        have hold := hInv.countOk r hr hrl
        rw [markColIf_itemCount, markColIf_id]
        unfold liveChildCount at hold ⊢
        dsimp only
        rw [hfilesCountC r.id hdr]
        have hcc := hcolsCount r hr hdr
        rw [hpar, if_neg (by simp), Nat.add_zero] at hcc
        rw [hcc]
        exact hold
    | some p =>
      dsimp only
      rw [hpar]
      dsimp only
      refine ⟨?_, ?_, ?_, ?_, ?_, ?_, ?_⟩
      · rw [List.map_map, List.map_map]
        have hids : db.collections.map
            (((fun c : CollectionRow => c.id) ∘ decIf p) ∘ markColIf (descOf db cid))
            = db.collections.map (fun c : CollectionRow => c.id) :=
          List.map_congr_left (fun a _ => by
            simp only [Function.comp_apply, decIf_id, markColIf_id])
        rw [hids]; exact hInv.colNodup
      · rw [hfileIds]; exact hInv.fileNodup
      · intro c hc
        obtain ⟨c1, hc1, hc1e⟩ := List.mem_map.mp hc
        obtain ⟨r, hr, hre⟩ := List.mem_map.mp hc1
        subst hc1e; subst hre
        rw [decIf_depth, markColIf_depth]; exact hInv.depthPos r hr
      · intro c hc
        have hlen : ((db.collections.map (markColIf (descOf db cid))).map (decIf p)).length
            = db.collections.length := by simp
        rw [hlen]
        obtain ⟨c1, hc1, hc1e⟩ := List.mem_map.mp hc
        obtain ⟨r, hr, hre⟩ := List.mem_map.mp hc1
        subst hc1e; subst hre
        rw [decIf_depth, markColIf_depth]; exact hInv.depthBound r hr
      · intro c hc p2 hp
        obtain ⟨c1, hc1, hc1e⟩ := List.mem_map.mp hc
        obtain ⟨r, hr, hre⟩ := List.mem_map.mp hc1
        subst hc1e; subst hre
        rw [decIf_parentId, markColIf_parentId] at hp
        obtain ⟨pr, hpr, h1, h2, h3⟩ := hInv.parentRes r hr p2 hp
        refine ⟨decIf p (markColIf (descOf db cid) pr),
          List.mem_map_of_mem _ (List.mem_map_of_mem _ hpr), ?_, ?_, ?_⟩
        · rw [decIf_id, markColIf_id]; exact h1
        · rw [decIf_depth, markColIf_depth, decIf_depth, markColIf_depth]; exact h2
        · intro hlv
          rw [decIf_isDeleted, markColIf_isDeleted] at hlv
          have hdr : descOf db cid r.id = false := by
            cases h4 : descOf db cid r.id with
            | false => rfl
            | true => rw [h4] at hlv; cases hlv
          have hrl : r.isDeleted = false := by
            rw [hdr] at hlv; simpa using hlv
          have hdp : descOf db cid pr.id = false := by
            cases h4 : descOf db cid pr.id with
            | false => rfl
            | true =>
              have := hstep r hr pr.id (h1 ▸ hp) h4
              rw [this] at hdr; cases hdr
          rw [decIf_isDeleted, markColIf_isDeleted, hdp, h3 hrl]
          rfl
      · intro g hg cid2 hgc
        obtain ⟨b, hb, hbg⟩ := List.mem_map.mp hg
        subst hbg
        rw [markFileIf_collectionId] at hgc
        obtain ⟨c, hc, h1, h2⟩ := hInv.fileColRes b hb cid2 hgc
        refine ⟨decIf p (markColIf (descOf db cid) c),
          List.mem_map_of_mem _ (List.mem_map_of_mem _ hc),
          by rw [decIf_id, markColIf_id]; exact h1, ?_⟩
        intro hlv
        rw [markFileIf_isDeleted] at hlv
        have hfh : fileHit (descOf db cid) b = false := by
          cases h4 : fileHit (descOf db cid) b with
          | false => rfl
          | true => rw [h4] at hlv; cases hlv
        have hbl : b.isDeleted = false := by
          rw [hfh] at hlv; simpa using hlv
        have hdc : descOf db cid c.id = false := by
          have h5 := hfh
          unfold fileHit at h5
          rw [hgc] at h5
          rw [h1]; exact h5
        rw [decIf_isDeleted, markColIf_isDeleted, hdc, h2 hbl]
        rfl
      · intro c hc hlv
        obtain ⟨c1, hc1, hc1e⟩ := List.mem_map.mp hc
        obtain ⟨r, hr, hre⟩ := List.mem_map.mp hc1
        subst hc1e; subst hre
        rw [decIf_isDeleted, markColIf_isDeleted] at hlv
        have hdr : descOf db cid r.id = false := by
          cases h4 : descOf db cid r.id with
          | false => rfl
          | true => rw [h4] at hlv; cases hlv
        have hrl : r.isDeleted = false := by
          rw [hdr] at hlv; simpa using hlv
        have hold := hInv.countOk r hr hrl
        rw [decIf_itemCount, markColIf_itemCount, markColIf_id, decIf_id, markColIf_id]
        unfold liveChildCount at hold ⊢
        dsimp only
        rw [hfilesCountC r.id hdr]
        rw [countP_map_eq (decIf p) _
          (fun a _ => by simp only [decIf_parentId, decIf_isDeleted])]
        have hcc := hcolsCount r hr hdr
        rw [hpar] at hcc
        by_cases h2 : r.id = p
        · rw [if_pos h2]
          rw [if_pos (by rw [h2])] at hcc
          push_cast
          omega
        · rw [if_neg h2]
          rw [if_neg (fun h3 => h2 (Option.some.inj h3).symm), Nat.add_zero] at hcc
          rw [hcc]
          exact hold

theorem inv_initial : Inv initialDB := by
  refine ⟨List.nodup_nil, List.nodup_nil, ?_, ?_, ?_, ?_, ?_⟩ <;>
    intro c hc <;> cases hc

theorem inv_applyOp (db : DB) (hInv : Inv db) (op : Op) : Inv (applyOp db op) := by
  cases op with
  | createRootCollection id e ph ae => exact inv_createRoot db hInv id e ph ae
  | createSubCollection id pid => exact inv_createSub db hInv id pid
  | addFileToCollection fid cid => exact inv_addFile db hInv fid cid
  | uploadStandaloneFile fid => exact inv_uploadFile db hInv fid
  | deleteFile fid => exact inv_deleteFile db hInv fid
  | deleteCollection cid => exact inv_deleteCascade db hInv cid

theorem inv_applyOps (ops : List Op) : ∀ db : DB, Inv db → Inv (applyOps db ops) := by
  induction ops with
  | nil => intro db h; exact h
  | cons op t ih =>
    intro db h
    exact ih (applyOp db op) (inv_applyOp db h op)

/-! ## Spec-side effective-policy resolution (refinement targets) -/

/-- The three policy fields the spec's effective policy consists of. -/
structure Policy where
  expiresAt : Option Int
  passwordHash : Option String
  allowedEmails : Option (List String)
deriving Repr, DecidableEq

/-- Modelled on the spec's resolver contract: resolve a collection target's
    effective policy by walking parent links to the root of its hierarchy and
    taking the root collection's fields. -/
def specEffectiveCollectionPolicy (db : DB) (collectionId : String) :
    Option (String × Policy) :=
  match getCollectionBreadcrumbs db collectionId with
  | [] => none
  | root :: _ =>
    match findLiveCollection db root.id with
    | none => none
    | some rc => some (rc.id, ⟨rc.expiresAt, rc.passwordHash, rc.allowedEmails⟩)

/-- The short-circuiting verdicts of the spec's evaluation order. -/
inductive PolicyDecision where
  | pass
  | expired
  | emailRejected
  | passwordMissing
  | passwordWrong
deriving Repr, DecidableEq

/-- Modelled on the spec's evaluation order: expiry, then the case-insensitive
    email allow-list, then the password. -/
def specPolicyEval (hash : String → String) (now : Int) (pol : Policy)
    (email : String) (password : Option String) : PolicyDecision :=
  if isCollectionExpired now pol.expiresAt then .expired
  else
    if decide (parseAllowedEmails pol.allowedEmails ≠ []) &&
        !((parseAllowedEmails pol.allowedEmails).any
            (fun e => e.toLower == email.toLower)) then
      .emailRejected
    else
      match pol.passwordHash with
      | none => .pass
      | some h =>
        match password with
        | none => .passwordMissing
        | some pw =>
          if pw = "" then .passwordMissing
          else if hash pw ≠ h then .passwordWrong
          else .pass

/-- Overwriting one row's three policy fields, leaving everything else intact. -/
def setPolicyIf (cid : String) (pol : Policy) (c : CollectionRow) : CollectionRow :=
  if c.id == cid then
    { c with expiresAt := pol.expiresAt, passwordHash := pol.passwordHash,
             allowedEmails := pol.allowedEmails }
  else c

/-- Overwriting one collection's three policy fields, leaving every other
    column and row unchanged. -/
def setCollectionPolicy (db : DB) (cid : String) (pol : Policy) : DB :=
  { db with collections := db.collections.map (setPolicyIf cid pol) }

theorem any_congr {α : Type} (l : List α) (p q : α → Bool) (h : ∀ a ∈ l, p a = q a) :
    l.any p = l.any q := by
  induction l with
  | nil => rfl
  | cons x t ih =>
    simp only [List.any_cons, h x (List.mem_cons_self x t)]
    rw [ih (fun a ha => h a (List.mem_cons_of_mem x ha))]

theorem beq_comm_str (a b : String) : (a == b) = (b == a) := by
  by_cases h : a = b
  · rw [h]
  · rw [beq_eq_false_iff_ne.mpr h, beq_eq_false_iff_ne.mpr (fun he => h he.symm)]

/-- The collection route's allow-list guard (null test, then parsed list
    non-empty, then lowercase `includes`) coincides with the spec's guard
    (non-empty allow-list without a case-insensitive match). -/
theorem emailGuard_eq (ae : Option (List String)) (email : String) :
    (ae.isSome && decide (parseAllowedEmails ae ≠ []) &&
      !((parseAllowedEmails ae).map String.toLower).contains email.toLower)
    = (decide (parseAllowedEmails ae ≠ []) &&
      !((parseAllowedEmails ae).any (fun e => e.toLower == email.toLower))) := by
  cases ae with
  | none => simp [parseAllowedEmails]
  | some l =>
    simp only [parseAllowedEmails, Option.isSome_some, Bool.true_and]
    congr 1
    rw [List.contains_eq_any_beq, List.any_map]
    exact congrArg (fun b => !b) (any_congr l _ _ (fun a _ => by
      simp only [Function.comp_apply]
      exact beq_comm_str email.toLower a.toLower))

theorem setPolicyIf_id (cid : String) (pol : Policy) (c : CollectionRow) :
    (setPolicyIf cid pol c).id = c.id := by
  unfold setPolicyIf; split <;> rfl

theorem setPolicyIf_parentId (cid : String) (pol : Policy) (c : CollectionRow) :
    (setPolicyIf cid pol c).parentId = c.parentId := by
  unfold setPolicyIf; split <;> rfl

theorem setPolicyIf_title (cid : String) (pol : Policy) (c : CollectionRow) :
    (setPolicyIf cid pol c).title = c.title := by
  unfold setPolicyIf; split <;> rfl

theorem setPolicyIf_isDeleted (cid : String) (pol : Policy) (c : CollectionRow) :
    (setPolicyIf cid pol c).isDeleted = c.isDeleted := by
  unfold setPolicyIf; split <;> rfl

theorem setPolicyIf_noop (cid : String) (pol : Policy) (c : CollectionRow)
    (h : c.id ≠ cid) : setPolicyIf cid pol c = c := by
  unfold setPolicyIf; rw [if_neg (by simpa using h)]

theorem findLive_setPolicy (db : DB) (cid2 : String) (pol : Policy) (cur : String) :
    findLiveCollection (setCollectionPolicy db cid2 pol) cur
      = (findLiveCollection db cur).map (setPolicyIf cid2 pol) := by
  unfold findLiveCollection setCollectionPolicy
  dsimp only
  exact find?_map_pres _ _ _ (fun a => by
    simp only [setPolicyIf_id, setPolicyIf_isDeleted])

theorem breadcrumbWalk_setPolicy (db : DB) (cid2 : String) (pol : Policy) :
    ∀ fuel cur, breadcrumbWalk (setCollectionPolicy db cid2 pol) fuel cur
      = breadcrumbWalk db fuel cur := by
  intro fuel
  induction fuel with
  | zero => intro cur; rfl
  | succ n ih =>
    intro cur
    unfold breadcrumbWalk
    rw [findLive_setPolicy]
    cases hf : findLiveCollection db cur with
    | none => rfl
    | some c =>
      simp only [Option.map_some']
      rw [setPolicyIf_parentId, setPolicyIf_id, setPolicyIf_title]
      cases c.parentId with
      | none => rfl
      | some p => dsimp only; rw [ih p]

theorem breadcrumbs_setPolicy (db : DB) (cid2 : String) (pol : Policy) (cur : String) :
    getCollectionBreadcrumbs (setCollectionPolicy db cid2 pol) cur
      = getCollectionBreadcrumbs db cur := by
  unfold getCollectionBreadcrumbs
  have hlen : (setCollectionPolicy db cid2 pol).collections.length
      = db.collections.length := by
    unfold setCollectionPolicy; simp
  rw [hlen]
  exact breadcrumbWalk_setPolicy db cid2 pol db.collections.length cur

/-- checkCollectionAccess agrees with evaluating the spec's effective policy
    (the breadcrumb root's fields) under the spec's evaluation order. -/
theorem checkCollectionAccess_eq_spec (hash : String → String) (db : DB) (now : Int)
    (collectionId email : String) (password : Option String) :
    checkCollectionAccess hash db now collectionId email password =
      (match specEffectiveCollectionPolicy db collectionId with
       | none => .denied "Collection not found"
       | some (rid, pol) =>
         match specPolicyEval hash now pol email password with
         | .pass => .allowed rid
         | .expired => .denied "Collection has expired"
         | .emailRejected => .denied "Email not authorized"
         | .passwordMissing => .denied "Password required"
         | .passwordWrong => .denied "Invalid password") := by
  unfold checkCollectionAccess specEffectiveCollectionPolicy specPolicyEval
  cases hbc : getCollectionBreadcrumbs db collectionId with
  | nil => rfl
  | cons root rest =>
    dsimp only
    cases hfr : findLiveCollection db root.id with
    | none => rfl
    | some rc =>
      dsimp only
      by_cases hexp : isCollectionExpired now rc.expiresAt = true
      · rw [if_pos hexp, if_pos hexp]
      · rw [if_neg hexp, if_neg hexp]
        rw [emailGuard_eq rc.allowedEmails email]
        by_cases hg : (decide (parseAllowedEmails rc.allowedEmails ≠ []) &&
            !((parseAllowedEmails rc.allowedEmails).any
              (fun e => e.toLower == email.toLower))) = true
        · rw [if_pos hg, if_pos hg]
        · rw [if_neg hg, if_neg hg]
          cases rc.passwordHash with
          | none => rfl
          | some h =>
            dsimp only
            cases password with
            | none => rfl
            | some pw =>
              dsimp only
              by_cases hpw : pw = ""
              · rw [if_pos hpw, if_pos hpw]
              · rw [if_neg hpw, if_neg hpw]
                by_cases hh : hash pw ≠ h
                · rw [if_pos hh, if_pos hh]
                · rw [if_neg hh, if_neg hh]

/-- The effective policy is untouched by rewriting the policy fields of any
    collection other than the resolved root. -/
theorem specEff_setPolicy (db : DB) (cid2 : String) (pol : Policy)
    (collectionId rid : String) (pol0 : Policy)
    (h : specEffectiveCollectionPolicy db collectionId = some (rid, pol0))
    (hne : cid2 ≠ rid) :
    specEffectiveCollectionPolicy (setCollectionPolicy db cid2 pol) collectionId
      = some (rid, pol0) := by
  unfold specEffectiveCollectionPolicy at h ⊢
  rw [breadcrumbs_setPolicy]
  cases hbc : getCollectionBreadcrumbs db collectionId with
  | nil => rw [hbc] at h; cases h
  | cons root rest =>
    rw [hbc] at h
    dsimp only at h ⊢
    rw [findLive_setPolicy]
    cases hfr : findLiveCollection db root.id with
    | none => rw [hfr] at h; cases h
    | some rc =>
      rw [hfr] at h
      dsimp only at h ⊢
      rw [Option.some.injEq, Prod.mk.injEq] at h
      have hrcid : rc.id = rid := h.1
      simp only [Option.map_some']
      rw [setPolicyIf_noop cid2 pol rc (by rw [hrcid]; exact fun he => hne he.symm)]
      rw [Option.some.injEq, Prod.mk.injEq]
      exact h

theorem isFileExpired_eq : isFileExpired = isCollectionExpired := rfl

/-- After the external email check and the file lookup, the file
    access-validation route is exactly the spec's evaluation order applied to
    the FILE ROW'S OWN policy fields. -/
theorem validateFileAccess_eq_spec (hash : String → String) (db : DB) (now : Int)
    (fid em : String) (pw : Option String) (file : FileRow)
    (hem : em ≠ "") (hff : findLiveFile db fid = some file) :
    validateFileAccess hash db now fid (some em) pw none =
      (match specPolicyEval hash now
          ⟨file.expiresAt, file.passwordHash, file.allowedEmails⟩ em pw with
       | .pass => (.granted (hash (tokenPayload fid em now)) now,
                   [logAccess fid em "download" true none], bumpFileDownloadCount db fid)
       | .expired =>
           (.fileExpired, [logAccess fid em "download" false (some "File expired")], db)
       | .emailRejected =>
           (.emailNotAuthorized,
            [logAccess fid em "download" false (some "Email not authorized")], db)
       | .passwordMissing => (.passwordRequired, [], db)
       | .passwordWrong =>
           (.incorrectPassword,
            [logAccess fid em "download" false (some "Invalid password")], db)) := by
  unfold validateFileAccess specPolicyEval
  dsimp only
  rw [if_neg hem, hff]
  dsimp only
  rw [← isFileExpired_eq]
  by_cases hexp : isFileExpired now file.expiresAt = true
  · rw [if_pos hexp, if_pos hexp]
  · rw [if_neg hexp, if_neg hexp]
    by_cases hg : (decide (parseAllowedEmails file.allowedEmails ≠ []) &&
        !((parseAllowedEmails file.allowedEmails).any
          (fun e => e.toLower == em.toLower))) = true
    · rw [if_pos hg, if_pos hg]
    · rw [if_neg hg, if_neg hg]
      cases file.passwordHash with
      | none => rfl
      | some h =>
        dsimp only
        cases pw with
        | none => rfl
        | some pw2 =>
          dsimp only
          by_cases hpw : pw2 = ""
          · rw [if_pos hpw, if_pos hpw]
          · rw [if_neg hpw, if_neg hpw]
            by_cases hh : hash pw2 ≠ h
            · rw [if_pos hh, if_pos hh]
            · rw [if_neg hh, if_neg hh]

/-! ## Claim C4 -/

/-- C4: every issued token equals the deterministic hash of
    `(resource-or-root id, requester email, issue timestamp)` (stated as: the
    token the file route and the collection route return is that hash, and
    validating a freshly generated token succeeds exactly when the window
    allows), and validating a tuple succeeds if and only if the recomputed hash
    matches exactly and `now - timestamp` is within the fixed window
    (5 minutes for file tokens, 30 minutes for collection tokens); past the
    window validation always fails. -/
theorem C4_token_roundtrip_and_window :
    (∀ (hash : String → String) (now : Int) (id email : String) (ts : Int),
      validateCollectionToken hash now id email
          (generateCollectionToken hash id email ts) ts
        = decide (now - ts ≤ COLLECTION_TOKEN_VALIDITY_MS)) ∧
    (∀ (hash : String → String) (now : Int) (id email tok : String) (ts : Int),
      validateCollectionToken hash now id email tok ts = true ↔
        (tok = generateCollectionToken hash id email ts ∧
         now - ts ≤ COLLECTION_TOKEN_VALIDITY_MS)) ∧
    (∀ (hash : String → String) (now : Int) (id email tok : String) (ts : Int),
      fileTokenCheck hash now id email tok ts = none ↔
        (tok = hash (tokenPayload id email ts) ∧ now - ts ≤ TOKEN_VALIDITY_MS)) ∧
    (∀ (hash : String → String) (db : DB) (now : Int) (fid em : String)
       (pw : Option String) (tok : String) (ts : Int) (logs : List AccessLogRow)
       (db2 : DB),
      validateFileAccess hash db now fid (some em) pw none
          = (.granted tok ts, logs, db2) →
        tok = hash (tokenPayload fid em ts)) ∧
    (∀ (hash : String → String) (db : DB) (now : Int) (cid em : String)
       (pw : Option String) (tok : String) (ts : Int) (rid : String)
       (logs : List CollectionLogRow),
      collectionValidateAccess hash db now cid (some em) pw none
          = (.granted tok ts rid, logs) →
        tok = generateCollectionToken hash rid em ts) ∧
    (∀ (hash : String → String) (now : Int) (id email tok : String) (ts : Int),
      now - ts > COLLECTION_TOKEN_VALIDITY_MS →
        validateCollectionToken hash now id email tok ts = false) := by
  refine ⟨?_, ?_, ?_, ?_, ?_, ?_⟩
  · intro hash now id email ts
    unfold validateCollectionToken
    by_cases h : now - ts > COLLECTION_TOKEN_VALIDITY_MS
    · rw [if_pos h]
      have : ¬ (now - ts ≤ COLLECTION_TOKEN_VALIDITY_MS) := by omega
      simp [this]
    · rw [if_neg h]
      have h2 : now - ts ≤ COLLECTION_TOKEN_VALIDITY_MS := by omega
      simp [h2]
  · intro hash now id email tok ts
    unfold validateCollectionToken
    by_cases h : now - ts > COLLECTION_TOKEN_VALIDITY_MS
    · rw [if_pos h]
      constructor
      · intro hf; cases hf
      · intro ⟨_, h2⟩; omega
    · rw [if_neg h]
      constructor
      · intro h2
        exact ⟨by simpa using h2, by omega⟩
      · intro ⟨h2, _⟩
        simp [h2]
  · intro hash now id email tok ts
    unfold fileTokenCheck
    by_cases h : now - ts > TOKEN_VALIDITY_MS
    · rw [if_pos h]
      constructor
      · intro hf; cases hf
      · intro ⟨_, h2⟩; omega
    · rw [if_neg h]
      by_cases h2 : tok ≠ hash (tokenPayload id email ts)
      · rw [if_pos h2]
        constructor
        · intro hf; cases hf
        · intro ⟨h3, _⟩; exact absurd h3 h2
      · rw [if_neg h2]
        constructor
        · intro _
          constructor
          · by_cases h3 : tok = hash (tokenPayload id email ts)
            · exact h3
            · exact absurd h3 h2
          · omega
        · intro _; rfl
  · intro hash db now fid em pw tok ts logs db2 h
    unfold validateFileAccess at h
    dsimp only at h
    repeat' split at h
    all_goals
      first
        | (refine absurd h ?_
           simp
           done)
        | (simp only [Prod.mk.injEq, FileAccessResp.granted.injEq] at h
           obtain ⟨⟨h1, h2⟩, -⟩ := h
           rw [← h2]
           exact h1.symm)
  · intro hash db now cid em pw tok ts rid logs h
    unfold collectionValidateAccess at h
    dsimp only at h
    repeat' split at h
    all_goals
      first
        | (refine absurd h ?_
           simp
           done)
        | (simp only [Prod.mk.injEq, CollValidateResp.granted.injEq] at h
           obtain ⟨⟨h1, h2, h3⟩, -⟩ := h
           rw [← h2, ← h3]
           exact h1.symm)
  · intro hash now id email tok ts h
    unfold validateCollectionToken
    rw [if_pos h]

/-- Witness for C4 at concrete inputs. -/
theorem C4_token_roundtrip_and_window_witness :
    validateCollectionToken (fun s => s) 1000 "C" "a@x.com"
        (generateCollectionToken (fun s => s) "C" "a@x.com" 500) 500
      = decide ((1000 : Int) - 500 ≤ COLLECTION_TOKEN_VALIDITY_MS) ∧
    validateCollectionToken (fun s => s) 2000000 "C" "a@x.com" "tok" 0 = false :=
  ⟨C4_token_roundtrip_and_window.1 (fun s => s) 1000 "C" "a@x.com" 500,
   C4_token_roundtrip_and_window.2.2.2.2.2 (fun s => s) 2000000 "C" "a@x.com" "tok" 0
     (by decide)⟩

/-! ## Claim C6 -/

/-- C6: after the blob write, a head miss records a storage-audit failure and
    no File row is created; a size mismatch records the exact mismatch, deletes
    the blob, and creates no row; the row and the success audit entry appear
    exactly when the head size equals the uploaded byte length. -/
theorem C6_upload_verification :
    (∀ (fileSize : Int) (fid key : String),
      uploadAfterPut none fileSize fid key =
        ⟨[⟨fid, "upload", key, some fileSize, "failed",
           some "R2 verification failed - file not found after upload"⟩],
         false, false, true⟩) ∧
    (∀ (sz fileSize : Int) (fid key : String), sz ≠ fileSize →
      uploadAfterPut (some sz) fileSize fid key =
        ⟨[⟨fid, "upload", key, some fileSize, "failed",
           some ("Size mismatch: expected " ++ toString fileSize ++ ", got " ++ toString sz)⟩],
         false, true, true⟩) ∧
    (∀ (fileSize : Int) (fid key : String),
      uploadAfterPut (some fileSize) fileSize fid key =
        ⟨[⟨fid, "upload", key, some fileSize, "success", none⟩], true, false, false⟩) ∧
    (∀ (head : Option Int) (fileSize : Int) (fid key : String),
      (uploadAfterPut head fileSize fid key).fileRowCreated = true ↔
        head = some fileSize) := by
  refine ⟨?_, ?_, ?_, ?_⟩
  · intro fileSize fid key; rfl
  · intro sz fileSize fid key h
    unfold uploadAfterPut
    dsimp only
    rw [if_pos h]
  · intro fileSize fid key
    unfold uploadAfterPut
    dsimp only
    rw [if_neg (by omega : ¬ fileSize ≠ fileSize)]
  · intro head fileSize fid key
    cases head with
    | none => simp [uploadAfterPut]
    | some sz =>
      unfold uploadAfterPut
      dsimp only
      by_cases h : sz ≠ fileSize
      · rw [if_pos h]
        simp [h]
      · rw [if_neg h]
        have h2 : sz = fileSize := by omega
        simp [h2]

/-- Witness for C6 at a concrete mismatch. -/
theorem C6_upload_verification_witness :
    uploadAfterPut (some 5) 7 "F" "files/F/F" =
      ⟨[⟨"F", "upload", "files/F/F", some 7, "failed",
         some ("Size mismatch: expected " ++ toString (7 : Int) ++ ", got " ++ toString (5 : Int))⟩],
       false, true, true⟩ :=
  C6_upload_verification.2.1 5 7 "F" "files/F/F" (by decide)

/-! ## Claim C3 -/

/-- C3: a time-valid (and hash-matching) collection token presented for a
    target outside the claimed root's subtree — the root id does not appear in
    the target's breadcrumb chain — is rejected with access denied: the
    download route streams no bytes, writes no log rows and leaves the store
    unchanged, and the browse route returns no listing. -/
theorem C3_root_scope_enforced :
    (∀ (hash : String → String) (db : DB) (blob : BlobStore) (now : Int)
       (collectionId fileId tok em rid : String) (ts : Int) (file : FileRow),
      validateCollectionToken hash now rid em tok ts = true →
      findLiveFile db fileId = some file →
      file.collectionId = some collectionId →
      isUnderRoot db collectionId rid = false →
      collectionFileDownloadGET hash db blob now collectionId fileId
          (some tok) (some ts) (some em) (some rid)
        = (.accessDenied, [], [], db)) ∧
    (∀ (hash : String → String) (db : DB) (now : Int)
       (id tok em rid : String) (ts : Int) (c : CollectionRow),
      validateCollectionToken hash now rid em tok ts = true →
      findLiveCollection db id = some c →
      isUnderRoot db id rid = false →
      collectionBrowseGET hash db now id (some tok) (some ts) (some em) (some rid)
        = .accessDenied) := by
  constructor
  · intro hash db blob now collectionId fileId tok em rid ts file hv hf hfc hroot
    unfold collectionFileDownloadGET
    dsimp only
    rw [hv, hf]
    dsimp only
    rw [if_neg (by simp), if_neg (by simp [hfc]), if_pos (by simp [hroot])]
  · intro hash db now id tok em rid ts c hv hf hroot
    unfold collectionBrowseGET
    dsimp only
    rw [hv, hf]
    dsimp only
    rw [if_neg (by simp), if_pos (by simp [hroot])]

/-- The file F1 living in sub-collection C1. -/
def c3file : FileRow :=
  { id := "F1", filename := "F1", r2Key := "files/F1/F1", fileSize := 7,
    mimeType := "application/pdf", expiresAt := none, passwordHash := none,
    allowedEmails := none, collectionId := some "C1", downloadCount := 0,
    isDeleted := false }

/-- The sub-collection C1 under root R1. -/
def c3c1 : CollectionRow :=
  { id := "C1", parentId := some "R1", title := "C1", expiresAt := none,
    passwordHash := none, allowedEmails := none, depth := 2, itemCount := 1,
    downloadCount := 0, isDeleted := false }

/-- Two root hierarchies: R1 with sub-collection C1 containing file F1, and an
    unrelated root R2. -/
def c3db : DB :=
  { files := [c3file],
    collections :=
      [{ id := "R1", parentId := none, title := "R1", expiresAt := none,
         passwordHash := none, allowedEmails := none, depth := 1, itemCount := 1,
         downloadCount := 0, isDeleted := false },
       c3c1,
       { id := "R2", parentId := none, title := "R2", expiresAt := none,
         passwordHash := none, allowedEmails := none, depth := 1, itemCount := 0,
         downloadCount := 0, isDeleted := false }] }

/-- Witness for C3: a token issued for root R2, time-valid, presented against
    C1 (a descendant of R1, not of R2). -/
theorem C3_root_scope_enforced_witness :
    collectionFileDownloadGET (fun s => s) c3db [] 100 "C1" "F1"
        (some (tokenPayload "R2" "a@x.com" 50)) (some 50) (some "a@x.com") (some "R2")
      = (.accessDenied, [], [], c3db) ∧
    collectionBrowseGET (fun s => s) c3db 100 "C1"
        (some (tokenPayload "R2" "a@x.com" 50)) (some 50) (some "a@x.com") (some "R2")
      = .accessDenied :=
  ⟨C3_root_scope_enforced.1 (fun s => s) c3db [] 100 "C1" "F1"
      (tokenPayload "R2" "a@x.com" 50) "a@x.com" "R2" 50 c3file
      (by decide) (by decide) (by decide) (by decide),
   C3_root_scope_enforced.2 (fun s => s) c3db 100 "C1"
      (tokenPayload "R2" "a@x.com" 50) "a@x.com" "R2" 50 c3c1
      (by decide) (by decide) (by decide)⟩

theorem find?_map_key {α : Type} (key : α → String) (l : List α) (g : α → α)
    (hg : ∀ a, key (g a) = key a) (hnd : (l.map key).Nodup) {r : α} (hr : r ∈ l) :
    (l.map g).find? (fun b => key b == key r) = some (g r) := by
  have hnd2 : ((l.map g).map key).Nodup := by
    rw [List.map_map]
    have hmc : l.map (key ∘ g) = l.map key := List.map_congr_left (fun a _ => hg a)
    rw [hmc]; exact hnd
  have hmem : g r ∈ l.map g := List.mem_map_of_mem g hr
  have hfind := find?_key_self key hnd2 hmem
  rw [hg r] at hfind
  exact hfind

/-! ## Claim C9 -/

/-- A live file inside collection R, for exercising the DELETE handler. -/
def c9file : FileRow :=
  { id := "F", filename := "F", r2Key := "files/F/F", fileSize := 3,
    mimeType := "application/pdf", expiresAt := none, passwordHash := none,
    allowedEmails := none, collectionId := some "R", downloadCount := 0,
    isDeleted := false }

def c9db : DB :=
  { files := [c9file],
    collections :=
      [{ id := "R", parentId := none, title := "R", expiresAt := none,
         passwordHash := none, allowedEmails := none, depth := 1, itemCount := 1,
         downloadCount := 0, isDeleted := false }] }

/-- C9 as stated is false: when the blob delete rejects, the handler returns an
    error before anything else runs — no storage-audit entry is written and the
    file row is NOT marked deleted, contradicting "the file row is marked
    deleted regardless of the blob-delete outcome" and "a storage-audit entry
    records that deletion's status". -/
theorem C9_counterexample :
    fileDeleteDELETE c9db .threw "F" = (.serverError, [], c9db) ∧
    findLiveFile c9db "F" = some c9file := by decide

/-- C9 amended: when the blob delete resolves, the handler writes one
    storage-audit row (status hard-coded to success), soft-deletes the file
    row (kept in the table, no longer live), and decrements the owning
    collection's item_count when there is one; when the blob delete throws,
    the handler returns a server error with no audit row and no database
    change. -/
theorem C9_amended :
    (∀ (db : DB) (id : String) (file : FileRow),
      (db.files.map (fun f => f.id)).Nodup →
      findLiveFile db id = some file →
      (fileDeleteDELETE db .ok id).1 = .deleted ∧
      (fileDeleteDELETE db .ok id).2.1
        = [⟨id, "delete", file.r2Key, some file.fileSize, "success", none⟩] ∧
      ((fileDeleteDELETE db .ok id).2.2.files.find? (fun f => f.id == id))
        = some { file with isDeleted := true } ∧
      findLiveFile (fileDeleteDELETE db .ok id).2.2 id = none ∧
      (∀ cid, file.collectionId = some cid →
        (fileDeleteDELETE db .ok id).2.2.collections = db.collections.map (decIf cid)) ∧
      (file.collectionId = none →
        (fileDeleteDELETE db .ok id).2.2.collections = db.collections)) ∧
    (∀ (db : DB) (id : String) (file : FileRow),
      findLiveFile db id = some file →
      fileDeleteDELETE db .threw id = (.serverError, [], db)) := by
  constructor
  · intro db id file hnd hff
    obtain ⟨hfmem, hfid, hflive⟩ := findLiveFile_spec db id file hff
    have hres : fileDeleteDELETE db .ok id
        = (.deleted, [⟨id, "delete", file.r2Key, some file.fileSize, "success", none⟩],
           { files := db.files.map (softDeleteIf id),
             collections :=
               match file.collectionId with
               | some cid => db.collections.map (decIf cid)
               | none => db.collections }) := by
      unfold fileDeleteDELETE
      rw [hff]
      dsimp only
      cases hfc : file.collectionId <;> rfl
    rw [hres]
    dsimp only
    refine ⟨rfl, rfl, ?_, ?_, ?_, ?_⟩
    · have hkey : (db.files.map (softDeleteIf id)).find? (fun f => f.id == file.id)
          = some (softDeleteIf id file) :=
        find?_map_key (fun f : FileRow => f.id) db.files (softDeleteIf id)
          (softDeleteIf_id id) hnd hfmem
      rw [hfid] at hkey
      rw [hkey]
      unfold softDeleteIf
      rw [if_pos (by simp [hfid])]
    · unfold findLiveFile
      dsimp only
      rw [List.find?_eq_none]
      intro x hx
      obtain ⟨b, hb, hbx⟩ := List.mem_map.mp hx
      subst hbx
      by_cases hbid : b.id = id
      · have hbdel : (softDeleteIf id b).isDeleted = true := by
          rw [softDeleteIf_isDeleted, if_pos hbid]
        simp [hbdel]
      · have : (softDeleteIf id b).id = b.id := softDeleteIf_id id b
        simp [this, hbid]
    · intro cid hcid
      rw [hcid]
    · intro hcid
      rw [hcid]
  · intro db id file hff
    unfold fileDeleteDELETE
    rw [hff]

/-- Witness for C9 at concrete inputs: both the successful-delete branch and
    the thrown-blob-delete branch. -/
theorem C9_amended_witness :
    ((fileDeleteDELETE c9db .ok "F").1 = .deleted ∧
     (fileDeleteDELETE c9db .ok "F").2.1
       = [⟨"F", "delete", c9file.r2Key, some c9file.fileSize, "success", none⟩] ∧
     ((fileDeleteDELETE c9db .ok "F").2.2.files.find? (fun f => f.id == "F"))
       = some { c9file with isDeleted := true } ∧
     findLiveFile (fileDeleteDELETE c9db .ok "F").2.2 "F" = none ∧
     (∀ cid, c9file.collectionId = some cid →
       (fileDeleteDELETE c9db .ok "F").2.2.collections = c9db.collections.map (decIf cid)) ∧
     (c9file.collectionId = none →
       (fileDeleteDELETE c9db .ok "F").2.2.collections = c9db.collections)) ∧
    fileDeleteDELETE c9db .threw "F" = (.serverError, [], c9db) :=
  ⟨C9_amended.1 c9db "F" c9file (by decide) (by decide),
   C9_amended.2 c9db "F" c9file (by decide)⟩

/-! ## Claim C10 -/

/-- A standalone live file for the single-file download route. -/
def c10file : FileRow :=
  { id := "F2", filename := "F2", r2Key := "files/F2/F2", fileSize := 9,
    mimeType := "application/pdf", expiresAt := none, passwordHash := none,
    allowedEmails := none, collectionId := none, downloadCount := 0,
    isDeleted := false }

def c10db : DB := { files := [c10file], collections := [] }

def c10blob : BlobStore := [("files/F2/F2", 9)]

/-- C10 as stated is false: the single-file download route revalidates the
    token and streams the bytes, yet writes no access-log row and no
    storage-audit row in that request. -/
theorem C10_counterexample :
    fileDownloadGET (fun s => s) c10db c10blob 100 "F2"
        (some (tokenPayload "F2" "a@x.com" 50)) (some 50) (some "a@x.com")
      = (.streamed "files/F2/F2" 9 "application/pdf" "F2", [], []) := by decide

/-- C10 amended: collection-scoped downloads are logged at download time (one
    storage-audit success row and one collection-access-log download_file row
    before streaming), but the single-file download route writes no audit rows
    on any path — its download was logged earlier, at validation time. -/
theorem C10_amended :
    (∀ (hash : String → String) (db : DB) (blob : BlobStore) (now : Int)
       (cid fid tok em rid : String) (ts : Int) (k mt fn : String) (sz : Int)
       (sa : List StorageAuditRow) (cl : List CollectionLogRow) (db2 : DB),
      collectionFileDownloadGET hash db blob now cid fid
          (some tok) (some ts) (some em) (some rid)
        = (.streamed k sz mt fn, sa, cl, db2) →
      sa = [⟨fid, "download", k, some sz, "success", none⟩] ∧
      cl = [⟨cid, em, "download_file", true, none⟩]) ∧
    (∀ (hash : String → String) (db : DB) (blob : BlobStore) (now : Int)
       (id : String) (token : Option String) (timestamp : Option Int)
       (email : Option String),
      (fileDownloadGET hash db blob now id token timestamp email).2.1 = [] ∧
      (fileDownloadGET hash db blob now id token timestamp email).2.2 = []) := by
  constructor
  · intro hash db blob now cid fid tok em rid ts k mt fn sz sa cl db2 h
    unfold collectionFileDownloadGET at h
    dsimp only at h
    repeat' split at h
    all_goals
      first
        | (refine absurd h ?_
           simp
           done)
        | (simp only [Prod.mk.injEq, CollDownloadResp.streamed.injEq] at h
           obtain ⟨⟨h1, h2, -, -⟩, h3, h4, -⟩ := h
           rw [← h3, ← h4, ← h1, ← h2]
           exact ⟨rfl, rfl⟩)
  · intro hash db blob now id token timestamp email
    constructor <;>
      (unfold fileDownloadGET
       repeat' split
       all_goals rfl)

/-- Witness for C10: a collection download that streams and logs, and a
    single-file download input on which the route writes nothing. -/
theorem C10_amended_witness :
    ([⟨"F1", "download", "files/F1/F1", some 7, "success", none⟩]
       = [(⟨"F1", "download", "files/F1/F1", some 7, "success", none⟩ : StorageAuditRow)] ∧
     [⟨"C1", "a@x.com", "download_file", true, none⟩]
       = [(⟨"C1", "a@x.com", "download_file", true, none⟩ : CollectionLogRow)]) ∧
    ((fileDownloadGET (fun s => s) c10db c10blob 100 "F2"
        (some (tokenPayload "F2" "a@x.com" 50)) (some 50) (some "a@x.com")).2.1 = [] ∧
     (fileDownloadGET (fun s => s) c10db c10blob 100 "F2"
        (some (tokenPayload "F2" "a@x.com" 50)) (some 50) (some "a@x.com")).2.2 = []) :=
  ⟨C10_amended.1 (fun s => s) c3db [("files/F1/F1", 7)] 100 "C1" "F1"
      (tokenPayload "R1" "a@x.com" 50) "a@x.com" "R1" 50 "files/F1/F1"
      "application/pdf" "F1" 7
      [⟨"F1", "download", "files/F1/F1", some 7, "success", none⟩]
      [⟨"C1", "a@x.com", "download_file", true, none⟩]
      (bumpCollectionDownloadCount (bumpFileDownloadCount c3db "F1") "R1") (by decide),
   C10_amended.2 (fun s => s) c10db c10blob 100 "F2"
      (some (tokenPayload "F2" "a@x.com" 50)) (some 50) (some "a@x.com")⟩

/-! ## Claim C5 -/

/-- A standalone live file whose expiry has passed. -/
def c5file : FileRow :=
  { id := "F3", filename := "F3", r2Key := "files/F3/F3", fileSize := 4,
    mimeType := "application/pdf", expiresAt := some 100, passwordHash := none,
    allowedEmails := none, collectionId := none, downloadCount := 0,
    isDeleted := false }

def c5db : DB := { files := [c5file], collections := [] }

def c5blob : BlobStore := [("files/F3/F3", 4)]

/-- C5 as stated is false: at `now = 200` the file's expiry (100) has passed,
    yet the single-file download route — which never re-reads expires_at —
    still streams the bytes for a time-valid token. -/
theorem C5_counterexample :
    isFileExpired 200 c5file.expiresAt = true ∧
    fileDownloadGET (fun s => s) c5db c5blob 200 "F3"
        (some (tokenPayload "F3" "a@x.com" 0)) (some 0) (some "a@x.com")
      = (.streamed "files/F3/F3" 4 "application/pdf" "F3", [], []) := by decide

/-- C5 amended: an expired effective policy rejects the access-VALIDATION
    attempt with the expiry reason regardless of password or email (file route
    and collection resolver alike), and the collection download route
    re-checks the root's expiry; the single-file download route does not
    re-check expiry. -/
theorem C5_expiry_enforcement :
    (∀ (hash : String → String) (db : DB) (now : Int) (fid em : String)
       (pw : Option String) (file : FileRow),
      em ≠ "" →
      findLiveFile db fid = some file →
      isFileExpired now file.expiresAt = true →
      validateFileAccess hash db now fid (some em) pw none
        = (.fileExpired, [logAccess fid em "download" false (some "File expired")], db)) ∧
    (∀ (hash : String → String) (db : DB) (now : Int) (cid em : String)
       (pw : Option String) (rid : String) (pol : Policy),
      specEffectiveCollectionPolicy db cid = some (rid, pol) →
      isCollectionExpired now pol.expiresAt = true →
      checkCollectionAccess hash db now cid em pw = .denied "Collection has expired") ∧
    (∀ (hash : String → String) (db : DB) (blob : BlobStore) (now : Int)
       (cid fid tok em rid : String) (ts : Int) (file : FileRow) (rc : CollectionRow),
      validateCollectionToken hash now rid em tok ts = true →
      findLiveFile db fid = some file →
      file.collectionId = some cid →
      isUnderRoot db cid rid = true →
      findLiveCollection db rid = some rc →
      isCollectionExpired now rc.expiresAt = true →
      collectionFileDownloadGET hash db blob now cid fid
          (some tok) (some ts) (some em) (some rid)
        = (.collectionExpired, [], [], db)) := by
  refine ⟨?_, ?_, ?_⟩
  · intro hash db now fid em pw file hem hff hexp
    rw [validateFileAccess_eq_spec hash db now fid em pw file hem hff]
    have hs : specPolicyEval hash now
        ⟨file.expiresAt, file.passwordHash, file.allowedEmails⟩ em pw = .expired := by
      unfold specPolicyEval
      dsimp only
      rw [← isFileExpired_eq, if_pos hexp]
    rw [hs]
  · intro hash db now cid em pw rid pol hspec hexp
    rw [checkCollectionAccess_eq_spec, hspec]
    dsimp only
    unfold specPolicyEval
    rw [if_pos hexp]
  · intro hash db blob now cid fid tok em rid ts file rc hv hf hfc hroot hrc hexp
    unfold collectionFileDownloadGET
    dsimp only
    rw [hv, hf]
    dsimp only
    rw [if_neg (by simp), if_neg (by simp [hfc]), if_neg (by simp [hroot]), hrc]
    dsimp only
    rw [if_pos hexp]

/-- An expired-policy file with a password and an allow-list, to show the
    expiry verdict wins over correct credentials. -/
def c5wfile : FileRow :=
  { id := "F4", filename := "F4", r2Key := "files/F4/F4", fileSize := 2,
    mimeType := "application/pdf", expiresAt := some 10, passwordHash := some "secret",
    allowedEmails := some ["a@x.com"], collectionId := none, downloadCount := 0,
    isDeleted := false }

def c5wdb : DB := { files := [c5wfile], collections := [] }

/-- An expired root R5 with sub-collection C5. -/
def c5cdb : DB :=
  { files := [],
    collections :=
      [{ id := "R5", parentId := none, title := "R5", expiresAt := some 10,
         passwordHash := none, allowedEmails := none, depth := 1, itemCount := 1,
         downloadCount := 0, isDeleted := false },
       { id := "C5", parentId := some "R5", title := "C5", expiresAt := none,
         passwordHash := none, allowedEmails := none, depth := 2, itemCount := 0,
         downloadCount := 0, isDeleted := false }] }

/-- Witness for C5: the correct password and an allowed email do not overcome
    expiry, for a file and for a sub-collection of an expired root. -/
theorem C5_expiry_enforcement_witness :
    validateFileAccess (fun s => s) c5wdb 20 "F4" (some "a@x.com") (some "secret") none
      = (.fileExpired, [logAccess "F4" "a@x.com" "download" false (some "File expired")],
         c5wdb) ∧
    checkCollectionAccess (fun s => s) c5cdb 20 "C5" "a@x.com" (some "pw")
      = .denied "Collection has expired" :=
  ⟨C5_expiry_enforcement.1 (fun s => s) c5wdb 20 "F4" "a@x.com" (some "secret") c5wfile
      (by decide) (by decide) (by decide),
   C5_expiry_enforcement.2.1 (fun s => s) c5cdb 20 "C5" "a@x.com" (some "pw") "R5"
      ⟨some 10, none, none⟩ (by decide) (by decide)⟩

/-! ## Claim C2 -/

/-- A live file gated by a password. -/
def c2file : FileRow :=
  { id := "F5", filename := "F5", r2Key := "files/F5/F5", fileSize := 6,
    mimeType := "application/pdf", expiresAt := none, passwordHash := some "h",
    allowedEmails := none, collectionId := none, downloadCount := 0,
    isDeleted := false }

def c2db : DB := { files := [c2file], collections := [] }

/-- C2 as stated is false: the file route's password-required rejection is
    returned with NO access-log row. -/
theorem C2_counterexample :
    validateFileAccess (fun s => s) c2db 100 "F5" (some "a@x.com") none none
      = (.passwordRequired, [], c2db) := by decide

/-- C2 amended: the collection validate route logs every resolver rejection
    (with its reason) and every success; the file validate route logs the
    expired / email-not-authorized / incorrect-password rejections and
    successes, but returns its resource-not-found and password-required
    rejections without writing any access-log row. -/
theorem C2_rejection_logging :
    (∀ (hash : String → String) (db : DB) (now : Int) (fid em : String)
       (pw : Option String) (resp : FileAccessResp) (logs : List AccessLogRow) (db2 : DB),
      validateFileAccess hash db now fid (some em) pw none = (resp, logs, db2) →
      (resp = .fileExpired →
        logs = [logAccess fid em "download" false (some "File expired")]) ∧
      (resp = .emailNotAuthorized →
        logs = [logAccess fid em "download" false (some "Email not authorized")]) ∧
      (resp = .incorrectPassword →
        logs = [logAccess fid em "download" false (some "Invalid password")]) ∧
      (∀ tok ts, resp = .granted tok ts →
        logs = [logAccess fid em "download" true none]) ∧
      (resp = .fileNotFound ∨ resp = .passwordRequired → logs = [])) ∧
    (∀ (hash : String → String) (db : DB) (now : Int) (cid em : String)
       (pw : Option String) (resp : CollValidateResp) (logs : List CollectionLogRow),
      collectionValidateAccess hash db now cid (some em) pw none = (resp, logs) →
      (∀ reason, resp = .denied reason →
        logs = [⟨cid, em, "view", false, some reason⟩]) ∧
      (∀ tok ts rid, resp = .granted tok ts rid →
        logs = [⟨cid, em, "view", true, none⟩])) := by
  constructor
  · intro hash db now fid em pw resp logs db2 h
    unfold validateFileAccess at h
    dsimp only at h
    repeat' split at h
    all_goals
      simp only [Prod.mk.injEq] at h
      obtain ⟨h1, h2, -⟩ := h
      subst h1
      subst h2
      refine ⟨?_, ?_, ?_, ?_, ?_⟩ <;>
        first
          | (intro heq; rfl)
          | (intro heq
             simp at heq
             done)
          | (intro t1 t2 heq; rfl)
          | (intro t1 t2 heq
             simp at heq
             done)
  · intro hash db now cid em pw resp logs h
    unfold collectionValidateAccess at h
    dsimp only at h
    repeat' split at h
    all_goals
      simp only [Prod.mk.injEq] at h
      obtain ⟨h1, h2⟩ := h
      subst h1
      subst h2
      constructor
      · intro reason heq
        first
          | (simp at heq
             done)
          | (rw [CollValidateResp.denied.injEq] at heq
             subst heq
             rfl)
      · intro tok ts rid heq
        first
          | (simp at heq
             done)
          | rfl

/-- A password-gated root collection for the collection-route witness. -/
def c2pwdb : DB :=
  { files := [],
    collections :=
      [{ id := "C5", parentId := none, title := "C5", expiresAt := none,
         passwordHash := some "h", allowedEmails := none, depth := 1, itemCount := 0,
         downloadCount := 0, isDeleted := false }] }

/-- Witness for C2: an incorrect-password rejection is logged with its reason
    on the file route, and a password-required rejection is logged on the
    collection route. -/
theorem C2_rejection_logging_witness :
    ((FileAccessResp.incorrectPassword = .fileExpired →
        [logAccess "F5" "a@x.com" "download" false (some "Invalid password")]
          = [logAccess "F5" "a@x.com" "download" false (some "File expired")]) ∧
     (FileAccessResp.incorrectPassword = .emailNotAuthorized →
        [logAccess "F5" "a@x.com" "download" false (some "Invalid password")]
          = [logAccess "F5" "a@x.com" "download" false (some "Email not authorized")]) ∧
     (FileAccessResp.incorrectPassword = .incorrectPassword →
        [logAccess "F5" "a@x.com" "download" false (some "Invalid password")]
          = [logAccess "F5" "a@x.com" "download" false (some "Invalid password")]) ∧
     (∀ tok ts, FileAccessResp.incorrectPassword = .granted tok ts →
        [logAccess "F5" "a@x.com" "download" false (some "Invalid password")]
          = [logAccess "F5" "a@x.com" "download" true none]) ∧
     (FileAccessResp.incorrectPassword = .fileNotFound ∨
      FileAccessResp.incorrectPassword = .passwordRequired →
        [logAccess "F5" "a@x.com" "download" false (some "Invalid password")] = [])) ∧
    ((∀ reason, CollValidateResp.denied "Password required" = .denied reason →
        [(⟨"C5", "a@x.com", "view", false, some "Password required"⟩ : CollectionLogRow)]
          = [⟨"C5", "a@x.com", "view", false, some reason⟩]) ∧
     (∀ tok ts rid, CollValidateResp.denied "Password required" = .granted tok ts rid →
        [(⟨"C5", "a@x.com", "view", false, some "Password required"⟩ : CollectionLogRow)]
          = [⟨"C5", "a@x.com", "view", true, none⟩])) :=
  ⟨C2_rejection_logging.1 (fun s => s) c2db 100 "F5" "a@x.com" (some "wrong")
      .incorrectPassword
      [logAccess "F5" "a@x.com" "download" false (some "Invalid password")] c2db
      (by decide),
   C2_rejection_logging.2 (fun s => s) c2pwdb 100 "C5" "a@x.com" none
      (.denied "Password required")
      [⟨"C5", "a@x.com", "view", false, some "Password required"⟩]
      (by decide)⟩

/-! ## Claim C1 -/

/-- A file owned by collection R, with no policy fields of its own. -/
def c1file : FileRow :=
  { id := "F", filename := "F", r2Key := "files/F/F", fileSize := 1,
    mimeType := "application/pdf", expiresAt := none, passwordHash := none,
    allowedEmails := none, collectionId := some "R", downloadCount := 0,
    isDeleted := false }

/-- The owning root collection, already expired at now = 200. -/
def c1root : CollectionRow :=
  { id := "R", parentId := none, title := "R", expiresAt := some 100,
    passwordHash := none, allowedEmails := none, depth := 1, itemCount := 1,
    downloadCount := 0, isDeleted := false }

def c1db : DB := { files := [c1file], collections := [c1root] }

/-- C1 as stated is false for owned files: file F belongs to collection R,
    whose effective (root) policy is expired at now = 200, yet the file
    access-validation route — which reads only the file's own columns —
    still grants a token. -/
theorem C1_counterexample :
    c1file.collectionId = some "R" ∧
    specEffectiveCollectionPolicy c1db "R" = some ("R", ⟨some 100, none, none⟩) ∧
    isCollectionExpired 200 (some 100) = true ∧
    (validateFileAccess (fun s => s) c1db 200 "F" (some "a@x.com") none none).1
      = .granted (tokenPayload "F" "a@x.com" 200) 200 := by decide

/-- C1 amended: the collection resolver does walk parent links to the root —
    checkCollectionAccess evaluates exactly the breadcrumb root's policy
    fields, and is insensitive to rewriting any non-root collection's own
    policy fields — but the file route evaluates the FILE'S OWN fields,
    ignoring any owning collection. -/
theorem C1_effective_policy :
    (∀ (hash : String → String) (db : DB) (now : Int) (cid em : String)
       (pw : Option String),
      checkCollectionAccess hash db now cid em pw =
        (match specEffectiveCollectionPolicy db cid with
         | none => .denied "Collection not found"
         | some (rid, pol) =>
           match specPolicyEval hash now pol em pw with
           | .pass => .allowed rid
           | .expired => .denied "Collection has expired"
           | .emailRejected => .denied "Email not authorized"
           | .passwordMissing => .denied "Password required"
           | .passwordWrong => .denied "Invalid password")) ∧
    (∀ (hash : String → String) (db : DB) (now : Int) (cid2 : String) (pol : Policy)
       (cid em : String) (pw : Option String) (rid : String) (pol0 : Policy),
      specEffectiveCollectionPolicy db cid = some (rid, pol0) →
      cid2 ≠ rid →
      checkCollectionAccess hash (setCollectionPolicy db cid2 pol) now cid em pw
        = checkCollectionAccess hash db now cid em pw) ∧
    (∀ (hash : String → String) (db : DB) (now : Int) (fid em : String)
       (pw : Option String) (file : FileRow),
      em ≠ "" →
      findLiveFile db fid = some file →
      validateFileAccess hash db now fid (some em) pw none =
        (match specPolicyEval hash now
            ⟨file.expiresAt, file.passwordHash, file.allowedEmails⟩ em pw with
         | .pass => (.granted (hash (tokenPayload fid em now)) now,
                     [logAccess fid em "download" true none],
                     bumpFileDownloadCount db fid)
         | .expired =>
             (.fileExpired, [logAccess fid em "download" false (some "File expired")],
              db)
         | .emailRejected =>
             (.emailNotAuthorized,
              [logAccess fid em "download" false (some "Email not authorized")], db)
         | .passwordMissing => (.passwordRequired, [], db)
         | .passwordWrong =>
             (.incorrectPassword,
              [logAccess fid em "download" false (some "Invalid password")], db))) := by
  refine ⟨?_, ?_, ?_⟩
  · exact checkCollectionAccess_eq_spec
  · intro hash db now cid2 pol cid em pw rid pol0 h hne
    rw [checkCollectionAccess_eq_spec, checkCollectionAccess_eq_spec,
        specEff_setPolicy db cid2 pol cid rid pol0 h hne, h]
  · exact validateFileAccess_eq_spec

/-- A root with a sub-collection, for the setPolicy-invariance instance. -/
def c1wdb : DB :=
  { files := [],
    collections :=
      [{ id := "R", parentId := none, title := "R", expiresAt := none,
         passwordHash := none, allowedEmails := none, depth := 1, itemCount := 1,
         downloadCount := 0, isDeleted := false },
       { id := "S", parentId := some "R", title := "S", expiresAt := none,
         passwordHash := none, allowedEmails := none, depth := 2, itemCount := 0,
         downloadCount := 0, isDeleted := false }] }

/-- Witness for C1: giving sub-collection S its own (junk) policy does not
    change the access verdict for S, and the file route applied to the owned
    file F evaluates F's own (empty) fields. -/
theorem C1_effective_policy_witness :
    checkCollectionAccess (fun s => s)
        (setCollectionPolicy c1wdb "S" ⟨some 0, some "junk", some ["z@x.com"]⟩)
        200 "S" "a@x.com" none
      = checkCollectionAccess (fun s => s) c1wdb 200 "S" "a@x.com" none ∧
    validateFileAccess (fun s => s) c1db 200 "F" (some "a@x.com") none none =
      (match specPolicyEval (fun s => s) 200
          ⟨c1file.expiresAt, c1file.passwordHash, c1file.allowedEmails⟩ "a@x.com" none with
       | .pass => (.granted (tokenPayload "F" "a@x.com" 200) 200,
                   [logAccess "F" "a@x.com" "download" true none],
                   bumpFileDownloadCount c1db "F")
       | .expired =>
           (.fileExpired, [logAccess "F" "a@x.com" "download" false (some "File expired")],
            c1db)
       | .emailRejected =>
           (.emailNotAuthorized,
            [logAccess "F" "a@x.com" "download" false (some "Email not authorized")],
            c1db)
       | .passwordMissing => (.passwordRequired, [], c1db)
       | .passwordWrong =>
           (.incorrectPassword,
            [logAccess "F" "a@x.com" "download" false (some "Invalid password")],
            c1db)) :=
  ⟨C1_effective_policy.2.1 (fun s => s) c1wdb 200 "S"
      ⟨some 0, some "junk", some ["z@x.com"]⟩ "S" "a@x.com" none "R" ⟨none, none, none⟩
      (by decide) (by decide),
   C1_effective_policy.2.2 (fun s => s) c1db 200 "F" "a@x.com" none c1file
      (by decide) (by decide)⟩

/-! ## Claim C7 -/

/-- Create a root, a sub-collection under it, then cascade-delete the root. -/
def c7ops : List Op :=
  [.createRootCollection "R7" none none none,
   .createSubCollection "S7" "R7",
   .deleteCollection "R7"]

/-- C7 as stated (quantified over ALL collections) is false: the cascade
    delete marks rows deleted without resetting their counters, so the
    deleted root keeps item_count = 1 while it has zero live children. -/
theorem C7_counterexample :
    ∃ c ∈ (applyOps initialDB c7ops).collections,
      c.itemCount ≠ (liveChildCount (applyOps initialDB c7ops) c.id : Int) := by decide

/-- C7 amended: after any operation sequence from the empty store, every
    NON-DELETED collection's item_count equals its live direct-child count
    (sub-collections plus files). -/
theorem C7_amended :
    ∀ (ops : List Op), ∀ c ∈ (applyOps initialDB ops).collections,
      c.isDeleted = false →
      c.itemCount = (liveChildCount (applyOps initialDB ops) c.id : Int) :=
  fun ops c hc hl => (inv_applyOps ops initialDB inv_initial).countOk c hc hl

def c7wops : List Op :=
  [.createRootCollection "R8" none none none,
   .createSubCollection "S8" "R8",
   .addFileToCollection "G8" "S8"]

/-- The root row after c7wops: bumped once by the sub-collection create. -/
def c7wroot : CollectionRow :=
  { id := "R8", parentId := none, title := "R8", expiresAt := none,
    passwordHash := none, allowedEmails := none, depth := 1, itemCount := 1,
    downloadCount := 0, isDeleted := false }

/-- Witness for C7 on a live root with one sub-collection child. -/
theorem C7_amended_witness :
    c7wroot ∈ (applyOps initialDB c7wops).collections ∧
    c7wroot.itemCount = (liveChildCount (applyOps initialDB c7wops) c7wroot.id : Int) :=
  ⟨by decide, C7_amended c7wops c7wroot (by decide) rfl⟩

/-! ## Claim C8 -/

/-- A file row is hit by the cascade exactly when it has an owning collection
    in the descendant set. -/
theorem fileHit_iff (db : DB) (hInv : Inv db) (cid : String) (f : FileRow) :
    fileHit (descOf db cid) f = true ↔
      ∃ oc, f.collectionId = some oc ∧ IsDesc db.collections cid oc := by
  unfold fileHit
  cases hfc : f.collectionId with
  | none => simp
  | some oc =>
    simp only [descOf, Option.some.injEq]
    rw [reaches_iff_isDesc db hInv cid oc]
    constructor
    · intro h; exact ⟨oc, rfl, h⟩
    · rintro ⟨oc2, hoc, h⟩; subst hoc; exact h

/-- Root R with nested sub-collections S1 (under R) and S2 (under S1) and
    three files, one per level. -/
def c8ops : List Op :=
  [.createRootCollection "R" none none none,
   .createSubCollection "S1" "R",
   .createSubCollection "S2" "S1",
   .addFileToCollection "F1" "R",
   .addFileToCollection "F2" "S1",
   .addFileToCollection "F3" "S2"]

def c8before : DB := applyOps initialDB c8ops

def c8after : DB := applyOp c8before (.deleteCollection "R")

/-- The root row of c8before. -/
def c8root : CollectionRow :=
  { id := "R", parentId := none, title := "R", expiresAt := none,
    passwordHash := none, allowedEmails := none, depth := 1, itemCount := 2,
    downloadCount := 0, isDeleted := false }

/-- The first-level sub-collection row of c8before. -/
def c8s1 : CollectionRow :=
  { id := "S1", parentId := some "R", title := "S1", expiresAt := none,
    passwordHash := none, allowedEmails := none, depth := 2, itemCount := 2,
    downloadCount := 0, isDeleted := false }

/-- The second-level sub-collection row of c8before. -/
def c8s2 : CollectionRow :=
  { id := "S2", parentId := some "S1", title := "S2", expiresAt := none,
    passwordHash := none, allowedEmails := none, depth := 3, itemCount := 1,
    downloadCount := 0, isDeleted := false }

/-- C8: the cascade delete marks the target and every descendant collection
    (transitive closure over parent links) deleted, marks every file owned by
    one of those collections deleted, decrements exactly the parent's
    item_count when the target has a parent and no counter when it is a root;
    and in the concrete root/S1/S2 + three-files scenario every row is
    soft-deleted, counters are untouched, and the live listings are empty. -/
theorem C8_cascade :
    (∀ (db : DB) (cid : String) (target : CollectionRow),
      Inv db →
      findLiveCollection db cid = some target →
      ((∀ r ∈ db.collections,
          ∃ r2 ∈ (deleteCollectionCascade db cid).collections,
            r2.id = r.id ∧
            (r2.isDeleted = true ↔
              (r.isDeleted = true ∨ IsDesc db.collections cid r.id))) ∧
       (∀ f ∈ db.files,
          ∃ f2 ∈ (deleteCollectionCascade db cid).files,
            f2.id = f.id ∧
            (f2.isDeleted = true ↔
              (f.isDeleted = true ∨
               ∃ oc, f.collectionId = some oc ∧ IsDesc db.collections cid oc))) ∧
       (target.parentId = none →
          ∀ r ∈ db.collections,
            ∃ r2 ∈ (deleteCollectionCascade db cid).collections,
              r2.id = r.id ∧ r2.itemCount = r.itemCount) ∧
       (∀ p, target.parentId = some p →
          ∀ r ∈ db.collections,
            ∃ r2 ∈ (deleteCollectionCascade db cid).collections,
              r2.id = r.id ∧
              r2.itemCount = (if r.id = p then r.itemCount - 1 else r.itemCount)))) ∧
    (c8before.collections.map (fun c => c.id) = ["R", "S1", "S2"] ∧
     c8before.files.map (fun f => f.id) = ["F1", "F2", "F3"] ∧
     c8after.collections.all (fun c => c.isDeleted) = true ∧
     c8after.files.all (fun f => f.isDeleted) = true ∧
     c8after.collections.map (fun c => (c.id, c.itemCount))
       = c8before.collections.map (fun c => (c.id, c.itemCount)) ∧
     c8after.collections.filter (fun c => !c.isDeleted) = [] ∧
     c8after.files.filter (fun f => !f.isDeleted) = []) := by
  constructor
  · intro db cid target hInv htf
    have hcase : deleteCollectionCascade db cid =
        { files := db.files.map (markFileIf (descOf db cid)),
          collections :=
            match target.parentId with
            | some p => (db.collections.map (markColIf (descOf db cid))).map (decIf p)
            | none => db.collections.map (markColIf (descOf db cid)) } := by
      unfold deleteCollectionCascade
      rw [htf]
    refine ⟨?_, ?_, ?_, ?_⟩
    · intro r hr
      rw [hcase]
      cases hpar : target.parentId with
      | none =>
        dsimp only
        refine ⟨markColIf (descOf db cid) r, List.mem_map_of_mem _ hr,
          markColIf_id _ _, ?_⟩
        rw [markColIf_isDeleted, Bool.or_eq_true]
        simp only [descOf]
        rw [reaches_iff_isDesc db hInv cid r.id]
        exact Or.comm
      | some p =>
        dsimp only
        refine ⟨decIf p (markColIf (descOf db cid) r),
          List.mem_map_of_mem _ (List.mem_map_of_mem _ hr), ?_, ?_⟩
        · rw [decIf_id, markColIf_id]
        · rw [decIf_isDeleted, markColIf_isDeleted, Bool.or_eq_true]
          simp only [descOf]
          rw [reaches_iff_isDesc db hInv cid r.id]
          exact Or.comm
    · intro f hf
      rw [hcase]
      dsimp only
      refine ⟨markFileIf (descOf db cid) f, List.mem_map_of_mem _ hf,
        markFileIf_id _ _, ?_⟩
      rw [markFileIf_isDeleted, Bool.or_eq_true, fileHit_iff db hInv cid f]
      exact Or.comm
    · intro hnone r hr
      rw [hcase, hnone]
      dsimp only
      exact ⟨markColIf (descOf db cid) r, List.mem_map_of_mem _ hr,
        markColIf_id _ _, markColIf_itemCount _ _⟩
    · intro p hp r hr
      rw [hcase, hp]
      dsimp only
      refine ⟨decIf p (markColIf (descOf db cid) r),
        List.mem_map_of_mem _ (List.mem_map_of_mem _ hr), ?_, ?_⟩
      · rw [decIf_id, markColIf_id]
      · rw [decIf_itemCount, markColIf_itemCount, markColIf_id]
  · decide

/-- Witness for C8: in the concrete scenario the deep sub-collection S2 is
    marked deleted by cascading from the root R, and S1's counter is
    untouched because the target R had no parent. -/
theorem C8_cascade_witness :
    (∃ r2 ∈ (deleteCollectionCascade c8before "R").collections,
       r2.id = c8s2.id ∧
       (r2.isDeleted = true ↔
         (c8s2.isDeleted = true ∨ IsDesc c8before.collections "R" c8s2.id))) ∧
    (∃ r2 ∈ (deleteCollectionCascade c8before "R").collections,
       r2.id = c8s1.id ∧ r2.itemCount = c8s1.itemCount) :=
  ⟨(C8_cascade.1 c8before "R" c8root (inv_applyOps c8ops initialDB inv_initial)
      (by decide)).1 c8s2 (by decide),
   (C8_cascade.1 c8before "R" c8root (inv_applyOps c8ops initialDB inv_initial)
      (by decide)).2.2.1 rfl c8s1 (by decide)⟩

end FileShare
